import Mathlib

/-!
Verification of the frame-alignment and frame-serving engine of the
rosbag-annotator repository (`BagService` in `src/Annotator.tsx`, together
with the `fetchFrame` display callback of `AnnotationPage` and the image
decoding boundary).

Modelling conventions:
* Message timestamps in milliseconds are integers (`timeToMs` produces
  `sec * 1000 + Math.round(nsec / 1e6)`, an integer).
* The frame-generation loop variable `t` advances by `33.33` ms per frame;
  every value it takes is an integer multiple of `0.01` ms, so the loop is
  carried exactly in integer units of 0.01 ms ("cms", centi-milliseconds).
  Theorem statements convert back to rational milliseconds.
* JavaScript `Map`s and plain objects are association lists with JS `Map`
  semantics: `set` updates an existing key in place or appends a fresh one,
  iteration is in insertion order, `delete` removes the keyed entry.
* The asynchronous point-lookup/decode boundary of `getFrameAt` is a
  deterministic oracle (`FetchOracle`); a thrown/caught per-topic error is
  the oracle answering `throws`.
* `loadFile` returns `Except.error` where the source throws, and on success
  `Except.ok degraded` where `degraded` records that the incomplete-coverage
  `console.warn` branch was taken.
-/

namespace RosAnnotator

/-- JavaScript `Math.round` on a rational: round half toward positive infinity. -/
def jsRound (q : ℚ) : ℤ := ⌊q + 1/2⌋

/-- `Math.round (t / 100)` for an integer `t` of centi-milliseconds, in pure
integer arithmetic (floor division). -/
def roundCms (t : ℤ) : ℤ := (t + 50).fdiv 100

/-- Integer form of `Math.round (n / 1e6)` for a nanosecond count. -/
def roundNsToMs (n : ℤ) : ℤ := (n + 500000).fdiv 1000000

/-- A ROS time: seconds plus nanoseconds. -/
structure Time where
  sec : ℤ
  nsec : ℤ
deriving DecidableEq

/-- Source `BagService.timeToMs`: `t.sec * 1000 + Math.round(t.nsec / 1e6)`. -/
def timeToMs (t : Time) : ℤ := t.sec * 1000 + roundNsToMs t.nsec

/-- A `sensor_msgs/JointState` payload: channel names plus parallel numeric
arrays. An absent/`undefined` name array and an empty one behave alike in the
source (`!rawMsg.name || rawMsg.name.length === 0`), so both are `[]` here. -/
structure JointStateMsg where
  name : List String
  position : List ℚ
  velocity : List ℚ
  effort : List ℚ
deriving DecidableEq

/-- An image-message payload as read back by `getFrameAt`'s point lookup. -/
structure ImgMsg where
  format : Option String
  encoding : String
  width : ℤ
  height : ℤ
  data : List ℕ
deriving DecidableEq

/-- A bag connection record: topic plus declared message type. -/
structure Conn where
  topic : String
  type : String
deriving DecidableEq

/-- A message as yielded by the load-time `messageIterator`.  The `joint`
payload is only ever read when the topic is a joint-state topic (the source
reads `msg.message` only under that branch). -/
structure RawMessage where
  topic : String
  timestamp : Time
  joint : JointStateMsg
deriving DecidableEq

/-- Source `LightMessage`: millisecond timestamp, original time,
topic, and the joint payload kept only for joint topics. -/
structure LightMessage where
  timestamp : ℤ
  originalTime : Time
  topic : String
  data : Option JointStateMsg
deriving DecidableEq

/-- The bag file as seen through `@foxglove/rosbag`: whether `open()`
succeeds, the connection list, and the target-topic message stream in
iterator order. -/
structure BagData where
  openOk : Bool
  connections : List Conn
  messages : List RawMessage
deriving DecidableEq

/-- JS-`Map`/object `set`: update an existing key in place, else append. -/
def updA {α β : Type} [DecidableEq α] (k : α) (v : β) : List (α × β) → List (α × β)
  | [] => [(k, v)]
  | (a, b) :: t => if a = k then (k, v) :: t else (a, b) :: updA k v t

/-- JS-`Map`/object key lookup. -/
def lookupA {α β : Type} [DecidableEq α] (k : α) : List (α × β) → Option β
  | [] => none
  | (a, b) :: t => if a = k then some b else lookupA k t

/-- JS-`Map` `delete`: remove the entry with the given key. -/
def eraseA {α β : Type} [DecidableEq α] (k : α) : List (α × β) → List (α × β)
  | [] => []
  | (a, b) :: t => if a = k then t else (a, b) :: eraseA k t

/-- First-defined choice between two optional values. -/
def optElse {β : Type} (a b : Option β) : Option β :=
  match a with
  | some x => some x
  | none => b

/-- Lexicographic comparison of character lists by code point. -/
def charListLtB : List Char → List Char → Bool
  | [], [] => false
  | [], _ :: _ => true
  | _ :: _, [] => false
  | a :: as, b :: bs =>
    if a.toNat < b.toNat then true
    else if b.toNat < a.toNat then false
    else charListLtB as bs

/-- JS default string comparison (code-unit lexicographic; these topic names
are ASCII so code points and UTF-16 units agree). -/
def strLtB (a b : String) : Bool := charListLtB a.toList b.toList

/-- Stable insertion into a sorted list: `x` goes before the first element
not strictly smaller than it, so earlier-read elements keep priority. -/
def insSortedBy {α : Type} (lt : α → α → Bool) (x : α) : List α → List α
  | [] => [x]
  | y :: t => if lt y x then y :: insSortedBy lt x t else x :: y :: t

/-- Stable sort (extensionally the unique stable sort, hence the behaviour of
JS `Array.prototype.sort`, which is stable per ES2019). -/
def sortBy {α : Type} (lt : α → α → Bool) : List α → List α
  | [] => []
  | x :: xs => insSortedBy lt x (sortBy lt xs)

/-- Source `imageTopics.sort()` / `jointTopics.sort()`. -/
def sortStrings (l : List String) : List String := sortBy strLtB l

/-- The message comparator `(a, b) => a.timestamp - b.timestamp`. -/
def msgLtB (a b : LightMessage) : Bool := decide (a.timestamp < b.timestamp)

/-- Source `allMessages.sort((a, b) => a.timestamp - b.timestamp)`. -/
def sortMsgs (l : List LightMessage) : List LightMessage := sortBy msgLtB l

def sensorImageType : String := "sensor_msgs/Image"

def sensorCompressedImageType : String := "sensor_msgs/CompressedImage"

def sensorJointStateType : String := "sensor_msgs/JointState"

/-- Step 1 of `loadFile` (topic analysis): walk the connections, recording
topic metadata (the stored `title` always equals the topic, so only the
`msgType` value is carried) and partitioning topics into image and joint
lists in connection order. -/
def classify (cs : List Conn) : List (String × String) × List String × List String :=
  cs.foldl
    (fun st conn =>
      if conn.type = sensorImageType ∨ conn.type = sensorCompressedImageType then
        (updA conn.topic conn.type st.1, st.2.1 ++ [conn.topic], st.2.2)
      else if conn.type = sensorJointStateType then
        (updA conn.topic conn.type st.1, st.2.1, st.2.2 ++ [conn.topic])
      else st)
    ([], [], [])

def metadataOf (b : BagData) : List (String × String) := (classify b.connections).1

def imageTopicsOf (b : BagData) : List String := sortStrings (classify b.connections).2.1

def jointTopicsOf (b : BagData) : List String := sortStrings (classify b.connections).2.2

/-- Source `targetTopics = [...imageTopics, ...jointTopics]`. -/
def targetTopicsOf (b : BagData) : List String := imageTopicsOf b ++ jointTopicsOf b

/-- Step 2 of `loadFile`: read the target-topic messages into `LightMessage`s,
keeping the full payload only for joint topics. -/
def lightMessages (b : BagData) : List LightMessage :=
  b.messages.filterMap fun rm =>
    if (targetTopicsOf b).contains rm.topic then
      some { timestamp := timeToMs rm.timestamp
             originalTime := rm.timestamp
             topic := rm.topic
             data := if (jointTopicsOf b).contains rm.topic then some rm.joint else none }
    else none

def sortedMessages (b : BagData) : List LightMessage := sortMsgs (lightMessages b)

/-- The running ZOH accumulator: `currentJoints` (a JS object holding
`msg.data`) and `currentImageTimes` (a JS `Map` topic → original time). -/
structure RunAcc where
  joints : List (String × Option JointStateMsg)
  imageTimes : List (String × Time)
deriving DecidableEq

def emptyAcc : RunAcc := ⟨[], []⟩

/-- One message applied to the running accumulator (both the bootstrap scan
and the frame loop use this exact update). -/
def updAcc (jts : List String) (acc : RunAcc) (m : LightMessage) : RunAcc :=
  if jts.contains m.topic then { acc with joints := updA m.topic m.data acc.joints }
  else { acc with imageTimes := updA m.topic m.originalTime acc.imageTimes }

def applyMsgs (jts : List String) (acc : RunAcc) (l : List LightMessage) : RunAcc :=
  l.foldl (updAcc jts) acc

/-- Step 3 of `loadFile` (bootstrapping): scan forward, adding each topic to
the seen set and updating the accumulator; stop at the first message after
which every target topic has been seen, returning its timestamp and the
message list from that message on (the source restarts its cursor at
`startMsgIndex = i`, i.e. including the bootstrap message itself).  If the
stream ends first, return `none` together with the fully-scanned
accumulator (the source does not reset `currentJoints`/`currentImageTimes`
in the fallback path). -/
def bootScan (jts tts : List String) (seen : List String) (acc : RunAcc) :
    List LightMessage → Option (ℤ × List LightMessage) × RunAcc
  | [] => (none, acc)
  | m :: rest =>
    let seen2 := m.topic :: seen
    let acc2 := updAcc jts acc m
    if tts.all (fun tp => seen2.contains tp) then (some (m.timestamp, m :: rest), acc2)
    else bootScan jts tts seen2 acc2 rest

def bootOf (b : BagData) : Option (ℤ × List LightMessage) × RunAcc :=
  bootScan (jointTopicsOf b) (targetTopicsOf b) [] emptyAcc (sortedMessages b)

/-- Source `firstFullStateTime` after the fallback: the bootstrap time actually used. -/
def bootstrapTs (b : BagData) : ℤ :=
  match (bootOf b).1 with
  | some p => p.1
  | none =>
    match sortedMessages b with
    | [] => 0
    | m :: _ => m.timestamp

/-- Source `endTime = allMessages[allMessages.length - 1].timestamp` (after sorting). -/
def lastTs (b : BagData) : ℤ :=
  match (sortedMessages b).getLast? with
  | some m => m.timestamp
  | none => 0

/-- The message list the frame loop starts from (`msgCursor = startMsgIndex`):
on bootstrap success, the sorted messages from the bootstrap message on;
in the fallback, the whole sorted list. -/
def initRestOf (b : BagData) : List LightMessage :=
  match (bootOf b).1 with
  | some p => p.2
  | none => sortedMessages b

/-- The running accumulator at the start of the frame loop (the fallback
keeps the fully-scanned, *not reset*, accumulator, as in the source). -/
def initAccOf (b : BagData) : RunAcc := (bootOf b).2

/-- The generated channel name `` `joint${k + 1}` ``. -/
def genName (k : ℕ) : String := "joint" ++ toString (k + 1)

/-- The name-defaulting in `snapshotJointData`: a missing/empty name list is
replaced by `joint1 .. jointN` with `N = position.length`. -/
def normalizeJoint (raw : JointStateMsg) : JointStateMsg :=
  if raw.name = [] then
    { raw with name := (List.range raw.position.length).map genName }
  else raw

/-- Source `BagService.snapshotJointData`: walk the discovered joint topics and copy
the accumulator's current value (if any) into a fresh per-frame object. -/
def snapshotJointData (jts : List String) (joints : List (String × Option JointStateMsg)) :
    List (String × JointStateMsg) :=
  jts.foldl
    (fun fj tp =>
      match lookupA tp joints with
      | some (some raw) => updA tp (normalizeJoint raw) fj
      | _ => fj)
    []

/-- One frame of the built index: rounded nominal timestamp, deep-copied
joint snapshot, deep-copied image-pointer map. -/
structure Frame where
  timestamp : ℤ
  joints : List (String × JointStateMsg)
  imagePtrs : List (String × Time)
deriving DecidableEq

/-- The fixed frame step, 33.33 ms, in centi-milliseconds. -/
def stepCms : ℤ := 3333

/-- The fixed frame step as a rational number of milliseconds. -/
def stepMs : ℚ := 3333 / 100

def mkFrame (jts : List String) (tCms : ℤ) (acc : RunAcc) : Frame :=
  { timestamp := roundCms tCms
    joints := snapshotJointData jts acc.joints
    imagePtrs := acc.imageTimes }

/-- The cursor guard `allMessages[msgCursor].timestamp <= t`, with `t` in
centi-milliseconds. -/
def msgLeB (tCms : ℤ) (m : LightMessage) : Bool := decide (m.timestamp * 100 ≤ tCms)

/-- Step 4 of `loadFile`: `for (let t = firstFullStateTime; t <= endTime;
t += 33.33)`, advancing a single never-rewinding cursor and snapshotting the
accumulator per frame.  `fuel` is a structural bound on the iteration count;
the `t ≤ endC` guard is what actually ends the loop, exactly as in the
source, and `loadFrames` passes fuel exceeding the iteration count. -/
def genFrames (jts : List String) : ℕ → List LightMessage → RunAcc → ℤ → ℤ → List Frame
  | 0, _, _, _, _ => []
  | fuel + 1, msgs, acc, t, endC =>
    if t ≤ endC then
      let acc2 := applyMsgs jts acc (msgs.takeWhile (msgLeB t))
      mkFrame jts t acc2 :: genFrames jts fuel (msgs.dropWhile (msgLeB t)) acc2 (t + stepCms) endC
    else []

/-- Steps 3–4 of `loadFile` for a bag that passed the structural checks:
the source locals map to the named components (`firstFullStateTime` is
`bootstrapTs`, `endTime` is `lastTs`, the cursor start is `initRestOf`, the
running accumulator is `initAccOf`); the fuel bounds the loop iteration
count, whose real exit is the `t ≤ endTime` guard inside `genFrames`. -/
def loadFrames (b : BagData) : List Frame :=
  match sortedMessages b with
  | [] => []
  | _ :: _ =>
    genFrames (jointTopicsOf b) ((lastTs b - bootstrapTs b).toNat / 33 + 2)
      (initRestOf b) (initAccOf b) (100 * bootstrapTs b) (100 * lastTs b)

/-- A parsed (materialized) frame as returned by `getFrameAt`. -/
structure ParsedFrame where
  timestamp : ℤ
  index : ℤ
  images : List (String × String)
  jointStateMap : List (String × JointStateMsg)
deriving DecidableEq

/-- The mutable fields of `BagService`. -/
structure ServiceState where
  bag : Option BagData
  timestamps : List ℤ
  topicMetadata : List (String × String)
  historicalJointData : List (List (String × JointStateMsg))
  imageTopics : List String
  jointTopics : List String
  frameImageIndex : List (List (String × Time))
  frameCache : List (ℤ × ParsedFrame)
deriving DecidableEq

def emptyState : ServiceState := ⟨none, [], [], [], [], [], [], []⟩

/-- Source `BagService.reset`: clear every field and drop the bag handle. -/
def reset (_ : ServiceState) : ServiceState := emptyState

def openErrorMsg : String := "Bag open failed."

def noTopicsMsg : String := "No compatible topics found."

def noMessagesMsg : String := "No messages found."

/-- Source `BagService.loadFile`.  Returns the post-call state together with
`Except.error` where the source throws and `Except.ok degraded` on success,
`degraded` recording the incomplete-coverage warning branch.  Note the
source assigns `this.bag` before `open()` and fills the topic fields before
the structural checks, so failed loads keep those partial assignments. -/
def loadFile (s : ServiceState) (b : BagData) : ServiceState × Except String Bool :=
  let s1 := { reset s with bag := some b }
  if b.openOk = false then (s1, Except.error openErrorMsg)
  else
    let s2 := { s1 with topicMetadata := metadataOf b
                        imageTopics := imageTopicsOf b
                        jointTopics := jointTopicsOf b }
    if (targetTopicsOf b).isEmpty then (s2, Except.error noTopicsMsg)
    else if (lightMessages b).isEmpty then (s2, Except.error noMessagesMsg)
    else
      let frames := loadFrames b
      ({ s2 with timestamps := frames.map (fun f => f.timestamp)
                 historicalJointData := frames.map (fun f => f.joints)
                 frameImageIndex := frames.map (fun f => f.imagePtrs) },
       Except.ok (bootOf b).1.isNone)

/-- Outcome of `messageIterator({topics: [topic], start: exactTime})` taking
the first yielded message: the iterator may throw (caught by the per-topic
`try`), yield nothing, or yield a first message. -/
inductive IterResult where
  | throws : IterResult
  | emptyStream : IterResult
  | firstMsg (msgTime : Time) (msg : ImgMsg) : IterResult
deriving DecidableEq

/-- The asynchronous boundary of `getFrameAt` as a deterministic oracle:
point lookups, `URL.createObjectURL` over a `Blob`, and
`ImageProcessor.processMessage` (which returns `null` on an unsupported
encoding or internal error). -/
structure FetchOracle where
  iterFirst : String → Time → IterResult
  blobUrl : String → ImgMsg → String
  decode : ImgMsg → Option String

/-- Byte-list prefix test. -/
def charListPrefixB : List Char → List Char → Bool
  | [], _ => true
  | _ :: _, [] => false
  | a :: as, b :: bs => if a = b then charListPrefixB as bs else false

/-- JS `String.prototype.includes`. -/
def strContains (hay needle : String) : Bool :=
  (List.range (hay.toList.length + 1)).any fun i =>
    charListPrefixB needle.toList (hay.toList.drop i)

def pngStr : String := "png"

def jpegStr : String := "jpeg"

def compressedImageStr : String := "CompressedImage"

/-- The per-topic body of `getFrameAt`'s fan-out: run the point lookup, keep
the first message, check its timestamp matches the pointer exactly, then
either wrap the compressed payload in a blob URL or run the decoder.  Any
thrown error is caught and yields nothing (`none`). -/
def fetchTopicImage (o : FetchOracle) (metadata : List (String × String))
    (tp : String) (exact : Time) : Option String :=
  match o.iterFirst tp exact with
  | IterResult.throws => none
  | IterResult.emptyStream => none
  | IterResult.firstMsg mt msg =>
    if mt = exact then
      match lookupA tp metadata with
      | none => none
      | some ty =>
        if strContains ty compressedImageStr then
          some (o.blobUrl
            (if (match msg.format with
                 | some f => strContains f pngStr
                 | none => false) then pngStr else jpegStr) msg)
        else o.decode msg
    else none

/-- One topic's outcome merged into the `frameData.images` object: a
successful lookup+decode stores the URL, a failure stores nothing. -/
def buildStep (o : FetchOracle) (metadata : List (String × String))
    (imgs : List (String × String)) (pr : String × Time) : List (String × String) :=
  match fetchTopicImage o metadata pr.1 pr.2 with
  | some url => updA pr.1 url imgs
  | none => imgs

/-- The fan-out over the frame's image-pointer snapshot, writing each
successful URL into `frameData.images` (distinct topics, so the concurrent
writes of the source commute and a left fold models them). -/
def buildImages (o : FetchOracle) (metadata : List (String × String))
    (snap : List (String × Time)) : List (String × String) :=
  snap.foldl (buildStep o metadata) []

/-- Capacity enforcement after a cache insert: `if (this.frameCache.size >
30)` delete the first (oldest-inserted) key. -/
def evictIfOver (cache1 : List (ℤ × ParsedFrame)) : List (ℤ × ParsedFrame) :=
  if 30 < cache1.length then
    match cache1 with
    | [] => cache1
    | (k, _) :: _ => eraseA k cache1
  else cache1

/-- Source `BagService.getFrameAt`: range/bag check, cache hit, or materialize,
insert into the cache and evict the oldest-inserted entry beyond 30. -/
def getFrameAt (o : FetchOracle) (s : ServiceState) (index : ℤ) :
    Option ParsedFrame × ServiceState :=
  match s.bag with
  | none => (none, s)
  | some _ =>
    if index < 0 ∨ (s.timestamps.length : ℤ) ≤ index then (none, s)
    else
      let targetTs := ((s.timestamps.get? index.toNat).getD 0 : ℤ)
      match lookupA targetTs s.frameCache with
      | some f => (some f, s)
      | none =>
        let frameData : ParsedFrame :=
          { timestamp := targetTs
            index := index
            images := buildImages o s.topicMetadata ((s.frameImageIndex.get? index.toNat).getD [])
            jointStateMap := (s.historicalJointData.get? index.toNat).getD [] }
        let cache1 := updA targetTs frameData s.frameCache
        (some frameData, { s with frameCache := evictIfOver cache1 })

/-- A driver issuing a sequence of frame requests. -/
def runCalls (o : FetchOracle) (s : ServiceState) (idxs : List ℤ) : ServiceState :=
  idxs.foldl (fun st i => (getFrameAt o st i).2) s

/-- Source `AnnotationPage.fetchFrame`, completion side: when a request
resolves, `if (frame) setDisplayedFrame(frame)` — the arriving result
overwrites the display whenever it is non-null, with no request-token or
generation check. -/
def applyFetchResult (displayed : Option ParsedFrame) (result : Option ParsedFrame) :
    Option ParsedFrame :=
  match result with
  | some f => some f
  | none => displayed

/-- The display after a batch of fetch completions arrive in a given order. -/
def displayAfter (displayed : Option ParsedFrame) (results : List (Option ParsedFrame)) :
    Option ParsedFrame :=
  results.foldl applyFetchResult displayed

/-- The nominal (un-rounded) time of frame `k`: bootstrap plus `k` steps. -/
def nominalTime (b : BagData) (k : ℕ) : ℚ := (bootstrapTs b : ℚ) + k * stepMs

def msgOnTopicB (tp : String) (m : LightMessage) : Bool := decide (m.topic = tp)

/-- The last message on a topic in a message list (tie-broken by list order,
i.e. by stable arrival order). -/
def lastOn (tp : String) (l : List LightMessage) : Option LightMessage :=
  (l.filter (msgOnTopicB tp)).getLast?

/-- Specification-side ZOH value with a rational cutoff: the payload of the
latest message on the topic with timestamp at most `u` milliseconds. -/
def zohJointSpec (b : BagData) (tp : String) (u : ℚ) : Option JointStateMsg :=
  (lastOn tp ((sortedMessages b).filter fun m => decide ((m.timestamp : ℚ) ≤ u))).bind
    fun m => m.data

/-- Specification-side ZOH value with an integer millisecond cutoff (the
claim's reading, cutting at the stored, rounded frame timestamp). -/
def zohJointSpecMs (b : BagData) (tp : String) (cut : ℤ) : Option JointStateMsg :=
  (lastOn tp ((sortedMessages b).filter fun m => decide (m.timestamp ≤ cut))).bind
    fun m => m.data

/-- The joint value held by the running accumulator when bootstrap was
decided (in the degraded fallback this is the fully-scanned accumulator). -/
def bootAccJoint (b : BagData) (tp : String) : Option JointStateMsg :=
  match lookupA tp (bootOf b).2.joints with
  | some d => d
  | none => none

theorem lookupA_updA_self {α β : Type} [DecidableEq α] (k : α) (v : β) (l : List (α × β)) :
    lookupA k (updA k v l) = some v := by
  induction l with
  | nil => simp [updA, lookupA]
  | cons p t ih =>
    obtain ⟨a, c⟩ := p
    by_cases h : a = k
    · subst h; simp [updA, lookupA]
    · simp [updA, lookupA, h, ih]

theorem lookupA_updA_ne {α β : Type} [DecidableEq α] {k k' : α} (v : β) (l : List (α × β))
    (h : k' ≠ k) : lookupA k' (updA k v l) = lookupA k' l := by
  induction l with
  | nil => simp [updA, lookupA, Ne.symm h]
  | cons p t ih =>
    obtain ⟨a, c⟩ := p
    by_cases ha : a = k
    · subst ha
      simp [updA, lookupA, Ne.symm h]
    · simp [updA, lookupA, ha, ih]

theorem updA_of_lookup_none {α β : Type} [DecidableEq α] {k : α} (v : β) {l : List (α × β)}
    (h : lookupA k l = none) : updA k v l = l ++ [(k, v)] := by
  induction l with
  | nil => simp [updA]
  | cons p t ih =>
    obtain ⟨a, c⟩ := p
    by_cases ha : a = k
    · subst ha; simp [lookupA] at h
    · simp [lookupA, ha] at h
      simp [updA, ha, ih h]

theorem length_updA_le {α β : Type} [DecidableEq α] (k : α) (v : β) (l : List (α × β)) :
    (updA k v l).length ≤ l.length + 1 := by
  induction l with
  | nil => simp [updA]
  | cons p t ih =>
    obtain ⟨a, c⟩ := p
    by_cases ha : a = k
    · subst ha; simp [updA]
    · simp [updA, ha]
      omega

theorem eraseA_cons_self {α β : Type} [DecidableEq α] (k : α) (v : β) (t : List (α × β)) :
    eraseA k ((k, v) :: t) = t := by
  simp [eraseA]

/-- Inversion of a successful `loadFile`: the structural checks passed, the
degraded flag is the incomplete-coverage outcome, and every field of the
resulting state is determined by the bag alone. -/
theorem loadFile_ok_inv {s0 : ServiceState} {b : BagData} {d : Bool}
    (h : (loadFile s0 b).2 = Except.ok d) :
    b.openOk = true ∧ (targetTopicsOf b).isEmpty = false ∧
    (lightMessages b).isEmpty = false ∧ d = (bootOf b).1.isNone ∧
    (loadFile s0 b).1.bag = some b ∧
    (loadFile s0 b).1.timestamps = (loadFrames b).map (fun f => f.timestamp) ∧
    (loadFile s0 b).1.topicMetadata = metadataOf b ∧
    (loadFile s0 b).1.historicalJointData = (loadFrames b).map (fun f => f.joints) ∧
    (loadFile s0 b).1.imageTopics = imageTopicsOf b ∧
    (loadFile s0 b).1.jointTopics = jointTopicsOf b ∧
    (loadFile s0 b).1.frameImageIndex = (loadFrames b).map (fun f => f.imagePtrs) ∧
    (loadFile s0 b).1.frameCache = [] := by
  unfold loadFile at h ⊢
  by_cases h1 : b.openOk = false
  · simp [h1] at h
  · by_cases h2 : (targetTopicsOf b).isEmpty
    · simp [h1, h2] at h
    · by_cases h3 : (lightMessages b).isEmpty
      · simp [h1, h2, h3] at h
      · simp only [h1, h2, h3, if_false, if_true, Bool.not_eq_false] at h ⊢
        refine ⟨by revert h1; cases b.openOk <;> simp, by simp [h2], by simp [h3],
          ?_, rfl, rfl, rfl, rfl, rfl, rfl, rfl, rfl⟩
        exact (Except.ok.injEq _ _).mp h.symm

/-- Inversion of a failed `loadFile`: every error path leaves the frame
index and cache empty (the `reset` at the top of `loadFile` cleared them and
the failure happened before any frame was built). -/
theorem loadFile_error_inv {s0 : ServiceState} {b : BagData} {msg : String}
    (h : (loadFile s0 b).2 = Except.error msg) :
    (loadFile s0 b).1.timestamps = [] ∧
    (loadFile s0 b).1.historicalJointData = [] ∧
    (loadFile s0 b).1.frameImageIndex = [] ∧
    (loadFile s0 b).1.frameCache = [] := by
  unfold loadFile
  by_cases h1 : b.openOk = false
  · simp [h1, reset, emptyState]
  · by_cases h2 : (targetTopicsOf b).isEmpty
    · simp [h1, h2, reset, emptyState]
    · by_cases h3 : (lightMessages b).isEmpty
      · simp [h1, h2, h3, reset, emptyState]
      · unfold loadFile at h
        simp [h1, h2, h3] at h

theorem getFrameAt_fst_none_of_empty (o : FetchOracle) (s : ServiceState) (i : ℤ)
    (h : s.timestamps = []) : (getFrameAt o s i).1 = none := by
  unfold getFrameAt
  cases hb : s.bag with
  | none => rfl
  | some bg =>
    have hcond : i < 0 ∨ (s.timestamps.length : ℤ) ≤ i := by
      rw [h]
      simp
      omega
    simp [hcond]

/-- A concrete joint payload. -/
def payloadA : JointStateMsg := ⟨["a"], [0], [], []⟩

/-- A second, different concrete joint payload. -/
def payloadB : JointStateMsg := ⟨["a"], [1], [], []⟩

/-- A fetch oracle whose point lookups always come back empty. -/
def oracle0 : FetchOracle :=
  { iterFirst := fun _ _ => IterResult.emptyStream
    blobUrl := fun _ _ => ""
    decode := fun _ => none }

/-- A bag with no compatible topics: `loadFile` fails on it. -/
def badBag : BagData := ⟨true, [], []⟩

def topicC : String := "/c"

def topicJ : String := "/j"

def urlU : String := "u"

/-- Claim C10: `loadFile` clears all prior state before building the new
index, so after a failed `loadFile` (no compatible topics, zero messages, or
an unreadable source) the frame index, joint history, image index and frame
cache are empty and `getFrameAt` returns `null` for every index — no frame
from a previously loaded file is ever served. -/
theorem failed_load_serves_nothing (s0 : ServiceState) (b : BagData) (msg : String)
    (h : (loadFile s0 b).2 = Except.error msg) :
    (loadFile s0 b).1.timestamps = [] ∧
    (loadFile s0 b).1.historicalJointData = [] ∧
    (loadFile s0 b).1.frameImageIndex = [] ∧
    (loadFile s0 b).1.frameCache = [] ∧
    ∀ (o : FetchOracle) (i : ℤ), (getFrameAt o (loadFile s0 b).1 i).1 = none := by
  obtain ⟨h1, h2, h3, h4⟩ := loadFile_error_inv h
  exact ⟨h1, h2, h3, h4, fun o i => getFrameAt_fst_none_of_empty o _ i h1⟩

/-- Witness for C10 at a concrete failing bag. -/
theorem failed_load_serves_nothing_witness :
    (getFrameAt oracle0 (loadFile emptyState badBag).1 5).1 = none :=
  (failed_load_serves_nothing emptyState badBag noTopicsMsg rfl).2.2.2.2 oracle0 5

theorem evictIfOver_len_le (cache1 : List (ℤ × ParsedFrame)) (h : cache1.length ≤ 31) :
    (evictIfOver cache1).length ≤ 30 := by
  unfold evictIfOver
  by_cases h31 : 30 < cache1.length
  · cases cache1 with
    | nil => simp at h31
    | cons p t =>
      obtain ⟨k, v⟩ := p
      simp only [h31, if_true, eraseA_cons_self]
      simp at h31 h
      omega
  · simp [h31]
    omega

theorem evictIfOver_append_over (k : ℤ) (v : ParsedFrame) (t : List (ℤ × ParsedFrame))
    (x : ℤ × ParsedFrame) (h : 30 ≤ ((k, v) :: t).length) :
    evictIfOver (((k, v) :: t) ++ [x]) = t ++ [x] := by
  unfold evictIfOver
  have hlen2 : 30 < ((k, v) :: (t ++ [x])).length := by
    simp at h ⊢
    omega
  simp only [List.cons_append]
  rw [if_pos hlen2]
  exact eraseA_cons_self k v (t ++ [x])

theorem getFrameAt_cache_le (o : FetchOracle) (s : ServiceState) (i : ℤ)
    (h : s.frameCache.length ≤ 30) : ((getFrameAt o s i).2).frameCache.length ≤ 30 := by
  unfold getFrameAt
  cases hb : s.bag with
  | none => simpa using h
  | some bg =>
    by_cases hr : i < 0 ∨ (s.timestamps.length : ℤ) ≤ i
    · simpa [hr] using h
    · simp only [hr, if_false]
      cases hc : lookupA ((s.timestamps.get? i.toNat).getD 0) s.frameCache with
      | some f => simpa using h
      | none =>
        simp only []
        refine evictIfOver_len_le _ ?_
        calc (updA ((s.timestamps.get? i.toNat).getD 0) _ s.frameCache).length
            ≤ s.frameCache.length + 1 := length_updA_le _ _ _
          _ ≤ 31 := by omega

theorem runCalls_cache_le (o : FetchOracle) (s : ServiceState) (idxs : List ℤ)
    (h : s.frameCache.length ≤ 30) : (runCalls o s idxs).frameCache.length ≤ 30 := by
  induction idxs generalizing s with
  | nil => simpa [runCalls] using h
  | cons i rest ih =>
    have step : runCalls o s (i :: rest) = runCalls o ((getFrameAt o s i).2) rest := rfl
    rw [step]
    exact ih _ (getFrameAt_cache_le o s i h)

/-- Claim C5: starting from any state whose frame cache holds at most 30
entries (in particular the post-load state, whose cache is empty), any
sequence of `getFrameAt` calls leaves at most 30 cached frames; and when an
insertion pushes the size above 30 the evicted entry is the oldest-inserted
one — the cache becomes its own tail (insertion-order FIFO) with the new
frame appended. -/
theorem cache_bounded_fifo :
    (∀ (o : FetchOracle) (s : ServiceState) (idxs : List ℤ),
        s.frameCache.length ≤ 30 → (runCalls o s idxs).frameCache.length ≤ 30) ∧
    (∀ (o : FetchOracle) (s : ServiceState) (i : ℤ) (bg : BagData),
        s.bag = some bg →
        ¬(i < 0 ∨ (s.timestamps.length : ℤ) ≤ i) →
        lookupA ((s.timestamps.get? i.toNat).getD 0) s.frameCache = none →
        30 ≤ s.frameCache.length →
        ∃ f, (getFrameAt o s i).1 = some f ∧
          (getFrameAt o s i).2.frameCache =
            s.frameCache.tail ++ [(((s.timestamps.get? i.toNat).getD 0), f)]) := by
  constructor
  · exact runCalls_cache_le
  · intro o s i bg hb hr hc hlen
    unfold getFrameAt
    rw [hb]
    simp only [hr, if_false, hc]
    refine ⟨_, rfl, ?_⟩
    rw [updA_of_lookup_none _ hc]
    cases hcc : s.frameCache with
    | nil => rw [hcc] at hlen; simp at hlen
    | cons p t =>
      obtain ⟨k, v⟩ := p
      rw [hcc] at hlen
      rw [evictIfOver_append_over k v t _ hlen, List.tail_cons]

/-- Witness for C5: a 43-frame bag, sequential requests for frames 0..40. -/
def wideBag : BagData :=
  { openOk := true
    connections := [⟨"/c", sensorImageType⟩, ⟨"/j", sensorJointStateType⟩]
    messages :=
      [ ⟨"/j", ⟨0, 0⟩, payloadA⟩
      , ⟨"/c", ⟨0, 0⟩, payloadA⟩
      , ⟨"/j", ⟨1, 400000000⟩, payloadB⟩ ] }

theorem cache_bounded_fifo_witness :
    (runCalls oracle0 (loadFile emptyState wideBag).1
        ((List.range 41).map (fun n => (n : ℤ)))).frameCache.length ≤ 30 :=
  cache_bounded_fifo.1 oracle0 _ _ (by decide)

/-- The 3-frame bag used for the concrete scenario theorems: a joint topic
`/j` with messages at 0 ms and 67 ms, and an image topic `/c` at 0 ms.  Its
frame timeline is `[0, 33, 67]` (nominal times 0, 33.33, 66.66). -/
def cexBag : BagData :=
  { openOk := true
    connections := [⟨"/c", sensorImageType⟩, ⟨"/j", sensorJointStateType⟩]
    messages :=
      [ ⟨"/j", ⟨0, 0⟩, payloadA⟩
      , ⟨"/c", ⟨0, 0⟩, payloadA⟩
      , ⟨"/j", ⟨0, 67000000⟩, payloadB⟩ ] }

/-- Claim C6 counterexample: the driver requests frame 0 and then frame 1
(most recently requested index: 1); the in-flight result for frame 0
arrives after the result for frame 1 and, because `fetchFrame` installs any
non-null result with no request-token comparison, the stale frame 0
overwrites the display, which ends showing index 0 instead of 1. -/
theorem stale_overwrites_display_cex :
    (displayAfter none
        [(getFrameAt oracle0 (loadFile emptyState cexBag).1 1).1,
         (getFrameAt oracle0 (loadFile emptyState cexBag).1 0).1]).map
        (fun f => f.index) = some 0 ∧
    ((getFrameAt oracle0 (loadFile emptyState cexBag).1 1).1).map
        (fun f => f.index) = some 1 := by
  exact ⟨rfl, rfl⟩

/-- Claim C6 amended: the displayed frame reflects the most recently
*completed* fetch, not the most recently requested one — after any sequence
of completions the display holds the last non-null arriving result (stale
results do overwrite newer ones; they are merely skipped when null). -/
theorem display_reflects_last_completed (d : Option ParsedFrame)
    (rs : List (Option ParsedFrame)) :
    displayAfter d rs = ((rs.filterMap id).getLast?).or d := by
  induction rs generalizing d with
  | nil => simp [displayAfter]
  | cons r rs ih =>
    have step : displayAfter d (r :: rs) = displayAfter (applyFetchResult d r) rs := rfl
    rw [step]
    cases r with
    | none =>
      simp only [List.filterMap_cons]
      exact ih d
    | some f =>
      rw [ih (applyFetchResult d (some f))]
      have hf : (List.filterMap id (some f :: rs)) = f :: List.filterMap id rs := by
        simp
      rw [hf]
      have hcons : (f :: List.filterMap id rs) = [f] ++ List.filterMap id rs := rfl
      rw [hcons, List.getLast?_append]
      show ((List.filterMap id rs).getLast?).or (some f) =
        (((List.filterMap id rs).getLast?).or ([f].getLast?)).or d
      have hsingle : ([f] : List ParsedFrame).getLast? = some f := rfl
      rw [hsingle, Option.or_assoc]
      rfl

theorem fetchTopicImage_fail {o' : FetchOracle} {T0 : String}
    (hfail : ∀ e, o'.iterFirst T0 e = IterResult.throws)
    (metadata : List (String × String)) (e : Time) :
    fetchTopicImage o' metadata T0 e = none := by
  unfold fetchTopicImage
  rw [hfail]

theorem fetchTopicImage_agree {o o' : FetchOracle} {T0 : String}
    (hagree : ∀ tp e, tp ≠ T0 → o'.iterFirst tp e = o.iterFirst tp e)
    (hdec : o'.decode = o.decode) (hblob : o'.blobUrl = o.blobUrl)
    (metadata : List (String × String)) {tp : String} (e : Time) (h : tp ≠ T0) :
    fetchTopicImage o' metadata tp e = fetchTopicImage o metadata tp e := by
  unfold fetchTopicImage
  rw [hagree tp e h, hdec, hblob]

theorem buildImages_fold_isolated {o o' : FetchOracle} {T0 : String}
    (hfail : ∀ e, o'.iterFirst T0 e = IterResult.throws)
    (hagree : ∀ tp e, tp ≠ T0 → o'.iterFirst tp e = o.iterFirst tp e)
    (hdec : o'.decode = o.decode) (hblob : o'.blobUrl = o.blobUrl)
    (metadata : List (String × String)) :
    ∀ (snap : List (String × Time)) (init init' : List (String × String)),
      lookupA T0 init' = none →
      (∀ tp, tp ≠ T0 → lookupA tp init' = lookupA tp init) →
      lookupA T0 (snap.foldl (buildStep o' metadata) init') = none ∧
      (∀ tp, tp ≠ T0 →
        lookupA tp (snap.foldl (buildStep o' metadata) init') =
          lookupA tp (snap.foldl (buildStep o metadata) init)) := by
  intro snap
  induction snap with
  | nil => intro init init' h0 hagreeInit; exact ⟨h0, hagreeInit⟩
  | cons pr rest ih =>
    intro init init' h0 hagreeInit
    obtain ⟨tp0, e0⟩ := pr
    simp only [List.foldl_cons]
    by_cases htp : tp0 = T0
    · subst htp
      have hstep' : buildStep o' metadata init' (tp0, e0) = init' := by
        unfold buildStep
        rw [fetchTopicImage_fail hfail]
      rw [hstep']
      refine ih _ _ h0 ?_
      intro tp htpne
      rw [hagreeInit tp htpne]
      unfold buildStep
      cases hfi : fetchTopicImage o metadata tp0 e0 with
      | none => rfl
      | some url => exact (lookupA_updA_ne url init htpne).symm
    · have hstep' : buildStep o' metadata init' (tp0, e0) =
          match fetchTopicImage o metadata tp0 e0 with
          | some url => updA tp0 url init'
          | none => init' := by
        unfold buildStep
        rw [fetchTopicImage_agree hagree hdec hblob metadata e0 htp]
      rw [hstep']
      cases hfi : fetchTopicImage o metadata tp0 e0 with
      | none =>
        simp only [buildStep, hfi]
        exact ih _ _ h0 hagreeInit
      | some url =>
        simp only [buildStep, hfi]
        refine ih _ _ ?_ ?_
        · rw [lookupA_updA_ne url init' (fun hh => htp hh.symm)]
          exact h0
        · intro tp htpne
          by_cases heq : tp = tp0
          · subst heq
            rw [lookupA_updA_self, lookupA_updA_self]
          · rw [lookupA_updA_ne url init' heq, lookupA_updA_ne url init heq]
            exact hagreeInit tp htpne

/-- Claim C4: if the point lookup (or decode) for one event topic fails
while materializing a frame, `getFrameAt` still returns the frame; the
failed topic is simply absent from the frame's `images` map, every other
topic's image is exactly what a fully-working oracle yields, and the joint
map and timestamp are untouched — the call as a whole never fails. -/
theorem partial_failure_isolated (o o' : FetchOracle) (s : ServiceState) (i : ℤ)
    (bg : BagData) (T0 : String)
    (hb : s.bag = some bg)
    (hr : ¬(i < 0 ∨ (s.timestamps.length : ℤ) ≤ i))
    (hcache : s.frameCache = [])
    (hfail : ∀ e, o'.iterFirst T0 e = IterResult.throws)
    (hagree : ∀ tp e, tp ≠ T0 → o'.iterFirst tp e = o.iterFirst tp e)
    (hdec : o'.decode = o.decode) (hblob : o'.blobUrl = o.blobUrl) :
    ∃ f' f, (getFrameAt o' s i).1 = some f' ∧ (getFrameAt o s i).1 = some f ∧
      lookupA T0 f'.images = none ∧
      (∀ tp, tp ≠ T0 → lookupA tp f'.images = lookupA tp f.images) ∧
      f'.jointStateMap = f.jointStateMap ∧ f'.timestamp = f.timestamp := by
  unfold getFrameAt
  rw [hb]
  simp only [hr, if_false, hcache]
  have hmiss : lookupA ((s.timestamps.get? i.toNat).getD 0)
      ([] : List (ℤ × ParsedFrame)) = none := rfl
  rw [hmiss]
  refine ⟨_, _, rfl, rfl, ?_, ?_, rfl, rfl⟩
  · exact (buildImages_fold_isolated hfail hagree hdec hblob s.topicMetadata
      _ [] [] rfl (fun _ _ => rfl)).1
  · exact (buildImages_fold_isolated hfail hagree hdec hblob s.topicMetadata
      _ [] [] rfl (fun _ _ => rfl)).2

/-- A fetch oracle that finds a message at exactly the requested time and
decodes it successfully. -/
def oracleB : FetchOracle :=
  { iterFirst := fun _ e => IterResult.firstMsg e ⟨none, "rgb8", 1, 1, []⟩
    blobUrl := fun _ _ => ""
    decode := fun _ => some urlU }

/-- Same oracle but with the point lookup for topic `/c` throwing. -/
def oracleFailC : FetchOracle :=
  { iterFirst := fun tp e =>
      if tp = topicC then IterResult.throws else oracleB.iterFirst tp e
    blobUrl := oracleB.blobUrl
    decode := oracleB.decode }

/-- Witness for C4 at a concrete loaded bag and failing topic `/c`. -/
theorem partial_failure_isolated_witness :
    ∃ f' f,
      (getFrameAt oracleFailC (loadFile emptyState cexBag).1 0).1 = some f' ∧
      (getFrameAt oracleB (loadFile emptyState cexBag).1 0).1 = some f ∧
      lookupA topicC f'.images = none ∧
      (∀ tp, tp ≠ topicC → lookupA tp f'.images = lookupA tp f.images) ∧
      f'.jointStateMap = f.jointStateMap ∧ f'.timestamp = f.timestamp :=
  partial_failure_isolated oracleB oracleFailC (loadFile emptyState cexBag).1 0 cexBag topicC
    (by decide) (by decide) rfl (fun e => rfl)
    (fun tp e h => by simp [oracleFailC, h]) rfl rfl

/-- Claim C9: after a successful load, `getFrameAt(index)` returns `null`
exactly when the index is outside `[0, frameCount)`; for every in-range
index it returns a frame carrying that index's timestamp, its index, the
per-topic joint-state map recorded for that frame, and the per-topic
decoded-image map produced from its image pointers. -/
theorem getFrameAt_null_iff (s0 : ServiceState) (b : BagData) (d : Bool)
    (h : (loadFile s0 b).2 = Except.ok d) (o : FetchOracle) (i : ℤ) :
    ((getFrameAt o (loadFile s0 b).1 i).1 = none ↔
      (i < 0 ∨ ((loadFile s0 b).1.timestamps.length : ℤ) ≤ i)) ∧
    (¬(i < 0 ∨ ((loadFile s0 b).1.timestamps.length : ℤ) ≤ i) →
      ∃ f, (getFrameAt o (loadFile s0 b).1 i).1 = some f ∧
        (loadFile s0 b).1.timestamps.get? i.toNat = some f.timestamp ∧
        f.index = i ∧
        f.jointStateMap = ((loadFile s0 b).1.historicalJointData.get? i.toNat).getD [] ∧
        f.images = buildImages o (loadFile s0 b).1.topicMetadata
          (((loadFile s0 b).1.frameImageIndex.get? i.toNat).getD [])) := by
  obtain ⟨-, -, -, -, hbag, -, -, -, -, -, -, hcache⟩ := loadFile_ok_inv h
  unfold getFrameAt
  rw [hbag]
  by_cases hr : i < 0 ∨ (((loadFile s0 b).1.timestamps).length : ℤ) ≤ i
  · rw [if_pos hr]
    exact ⟨⟨fun _ => hr, fun _ => rfl⟩, fun hcontra => absurd hr hcontra⟩
  · simp only [hr, if_false, hcache]
    have hmiss : lookupA (((loadFile s0 b).1.timestamps.get? i.toNat).getD 0)
        ([] : List (ℤ × ParsedFrame)) = none := rfl
    rw [hmiss]
    constructor
    · simp [hr]
    · intro _
      refine ⟨_, rfl, ?_, rfl, rfl, rfl⟩
      have h0 : 0 ≤ i := by omega
      have hlt : i.toNat < (loadFile s0 b).1.timestamps.length := by
        rw [Int.toNat_lt h0]
        omega
      simp only [List.get?_eq_getElem?, List.getElem?_eq_getElem hlt, Option.getD_some]

/-- Witness for C9: in-range and out-of-range concrete queries. -/
theorem getFrameAt_null_iff_witness :
    (getFrameAt oracle0 (loadFile emptyState cexBag).1 5).1 = none :=
  (getFrameAt_null_iff emptyState cexBag false rfl oracle0 5).1.mpr (by decide)

/-- The number of iterations of the frame loop from time `t` to `e`
(centi-milliseconds): `⌊(e - t) / 33.33⌋ + 1` when `t ≤ e`, else 0. -/
def countCms (t e : ℤ) : ℕ := if t ≤ e then (e - t).toNat / 3333 + 1 else 0

theorem countCms_succ {t e : ℤ} (h : t ≤ e) :
    countCms t e = countCms (t + stepCms) e + 1 := by
  unfold countCms stepCms
  by_cases h2 : t + 3333 ≤ e
  · rw [if_pos h, if_pos h2]
    have hge : 3333 ≤ (e - t).toNat := by omega
    have hsub : (e - (t + 3333)).toNat = (e - t).toNat - 3333 := by omega
    rw [hsub]
    have hd := Nat.div_eq_sub_div (by norm_num : 0 < 3333) hge
    omega
  · rw [if_pos h, if_neg h2]
    have hlt : (e - t).toNat < 3333 := by omega
    rw [Nat.div_eq_of_lt hlt]

theorem countCms_pos {t e : ℤ} (h : t ≤ e) : 1 ≤ countCms t e := by
  unfold countCms
  rw [if_pos h]
  omega

theorem genFrames_length (jts : List String) :
    ∀ (fuel : ℕ) (msgs : List LightMessage) (acc : RunAcc) (t e : ℤ),
      countCms t e ≤ fuel → (genFrames jts fuel msgs acc t e).length = countCms t e := by
  intro fuel
  induction fuel with
  | zero =>
    intro msgs acc t e hf
    simp only [genFrames, List.length_nil]
    omega
  | succ f ih =>
    intro msgs acc t e hf
    unfold genFrames
    by_cases h : t ≤ e
    · rw [if_pos h]
      have hsucc := countCms_succ (e := e) h
      simp only [List.length_cons]
      rw [ih _ _ _ _ (by omega)]
      omega
    · rw [if_neg h]
      unfold countCms
      rw [if_neg h]
      rfl

theorem takeWhile_le_split (t u : ℤ) (h : t ≤ u) (msgs : List LightMessage) :
    msgs.takeWhile (msgLeB u) =
      msgs.takeWhile (msgLeB t) ++ (msgs.dropWhile (msgLeB t)).takeWhile (msgLeB u) := by
  induction msgs with
  | nil => rfl
  | cons m rest ih =>
    by_cases hm : msgLeB t m = true
    · have hmu : msgLeB u m = true := by
        unfold msgLeB at hm ⊢
        simp at hm ⊢
        omega
      simp only [List.takeWhile_cons, List.dropWhile_cons, hm, hmu, if_true, List.cons_append]
      rw [ih]
    · simp only [List.takeWhile_cons, List.dropWhile_cons, hm]
      simp [List.takeWhile_cons]

theorem applyMsgs_append (jts : List String) (acc : RunAcc) (l1 l2 : List LightMessage) :
    applyMsgs jts acc (l1 ++ l2) = applyMsgs jts (applyMsgs jts acc l1) l2 :=
  List.foldl_append _ _ _ _

theorem genFrames_get? (jts : List String) :
    ∀ (k : ℕ) (fuel : ℕ) (msgs : List LightMessage) (acc : RunAcc) (t e : ℤ),
      countCms t e ≤ fuel → k < countCms t e →
      (genFrames jts fuel msgs acc t e).get? k =
        some (mkFrame jts (t + k * stepCms)
          (applyMsgs jts acc (msgs.takeWhile (msgLeB (t + k * stepCms))))) := by
  intro k
  induction k with
  | zero =>
    intro fuel msgs acc t e hf hk
    have ht : t ≤ e := by
      by_contra hc
      unfold countCms at hk
      rw [if_neg hc] at hk
      omega
    cases fuel with
    | zero => omega
    | succ f =>
      unfold genFrames
      rw [if_pos ht]
      simp

  | succ k ih =>
    intro fuel msgs acc t e hf hk
    have ht : t ≤ e := by
      by_contra hc
      unfold countCms at hk
      rw [if_neg hc] at hk
      omega
    cases fuel with
    | zero =>
      have := countCms_pos (e := e) ht
      omega
    | succ f =>
      unfold genFrames
      rw [if_pos ht]
      have hsucc := countCms_succ (e := e) ht
      have step1 : ((mkFrame jts t (applyMsgs jts acc (msgs.takeWhile (msgLeB t)))) ::
          genFrames jts f (msgs.dropWhile (msgLeB t))
            (applyMsgs jts acc (msgs.takeWhile (msgLeB t))) (t + stepCms) e).get? (k + 1) =
          (genFrames jts f (msgs.dropWhile (msgLeB t))
            (applyMsgs jts acc (msgs.takeWhile (msgLeB t))) (t + stepCms) e).get? k := rfl
      rw [step1, ih f _ _ _ e (by omega) (by omega)]
      have harg : t + stepCms + (k : ℤ) * stepCms = t + ((k : ℕ) + 1 : ℕ) * stepCms := by
        push_cast
        ring

      have hle : t ≤ t + ((k : ℕ) + 1 : ℕ) * stepCms := by
        have hnn : (0 : ℤ) ≤ (((k : ℕ) + 1 : ℕ) : ℤ) * stepCms := by
          apply mul_nonneg
          · exact_mod_cast Nat.zero_le _
          · unfold stepCms; norm_num
        omega
      rw [harg, ← applyMsgs_append, ← takeWhile_le_split _ _ hle]

theorem mem_insSortedBy {α : Type} (lt : α → α → Bool) (x a : α) (l : List α) :
    a ∈ insSortedBy lt x l ↔ a = x ∨ a ∈ l := by
  induction l with
  | nil => simp [insSortedBy]
  | cons y t ih =>
    unfold insSortedBy
    by_cases hlt : lt y x = true
    · rw [if_pos hlt]
      simp only [List.mem_cons, ih]
      tauto
    · rw [if_neg hlt]
      simp only [List.mem_cons]

theorem length_insSortedBy {α : Type} (lt : α → α → Bool) (x : α) (l : List α) :
    (insSortedBy lt x l).length = l.length + 1 := by
  induction l with
  | nil => rfl
  | cons y t ih =>
    unfold insSortedBy
    by_cases hlt : lt y x = true
    · rw [if_pos hlt]
      simp [ih]
    · rw [if_neg hlt]
      simp

theorem length_sortMsgs (l : List LightMessage) : (sortMsgs l).length = l.length := by
  unfold sortMsgs
  induction l with
  | nil => rfl
  | cons x t ih =>
    unfold sortBy
    rw [length_insSortedBy]
    simp [ih]

theorem mem_sortMsgs {a : LightMessage} {l : List LightMessage} :
    a ∈ sortMsgs l ↔ a ∈ l := by
  unfold sortMsgs
  induction l with
  | nil => simp [sortBy]
  | cons x t ih =>
    unfold sortBy
    rw [mem_insSortedBy]
    simp [ih]

theorem pairwise_insSortedBy {x : LightMessage} {l : List LightMessage}
    (hl : l.Pairwise (fun a b => a.timestamp ≤ b.timestamp)) :
    (insSortedBy msgLtB x l).Pairwise (fun a b => a.timestamp ≤ b.timestamp) := by
  induction l with
  | nil => simp [insSortedBy]
  | cons y t ih =>
    rw [List.pairwise_cons] at hl
    obtain ⟨hyt, hpt⟩ := hl
    unfold insSortedBy
    by_cases hlt : msgLtB y x = true
    · rw [if_pos hlt]
      rw [List.pairwise_cons]
      constructor
      · intro z hz
        rw [mem_insSortedBy] at hz
        rcases hz with hz | hz
        · subst hz
          unfold msgLtB at hlt
          simp at hlt
          omega
        · exact hyt z hz
      · exact ih hpt
    · rw [if_neg hlt]
      rw [List.pairwise_cons]
      constructor
      · intro z hz
        unfold msgLtB at hlt
        simp at hlt
        rw [List.mem_cons] at hz
        rcases hz with hz | hz
        · subst hz; omega
        · have := hyt z hz
          omega
      · exact List.Pairwise.cons hyt hpt

theorem sortMsgs_pairwise (l : List LightMessage) :
    (sortMsgs l).Pairwise (fun a b => a.timestamp ≤ b.timestamp) := by
  unfold sortMsgs
  induction l with
  | nil => simp [sortBy]
  | cons x t ih => exact pairwise_insSortedBy ih

theorem sorted_le_last {l : List LightMessage}
    (hp : l.Pairwise (fun a b => a.timestamp ≤ b.timestamp)) {m x : LightMessage}
    (hm : m ∈ l) (hlast : l.getLast? = some x) : m.timestamp ≤ x.timestamp := by
  induction l with
  | nil => simp at hm
  | cons y t ih =>
    rw [List.pairwise_cons] at hp
    obtain ⟨hyt, hpt⟩ := hp
    cases t with
    | nil =>
      simp at hm hlast
      subst hm
      subst hlast
      rfl
    | cons z t2 =>
      have hlast2 : (z :: t2).getLast? = some x := by
        rw [List.getLast?_cons_cons] at hlast
        exact hlast
      rcases List.mem_cons.mp hm with hm1 | hm2
      · subst hm1
        have hx : x ∈ z :: t2 := by
          obtain ⟨hne', hxeq⟩ := List.mem_getLast?_eq_getLast (Option.mem_def.mpr hlast2)
          rw [hxeq]
          exact List.getLast_mem hne'
        exact hyt x hx
      · exact ih hpt hm2 hlast2

theorem bootScan_none_acc (jts tts : List String) :
    ∀ (l : List LightMessage) (seen : List String) (acc : RunAcc),
      (bootScan jts tts seen acc l).1 = none →
      (bootScan jts tts seen acc l).2 = applyMsgs jts acc l := by
  intro l
  induction l with
  | nil => intro seen acc _; rfl
  | cons m rest ih =>
    intro seen acc h
    unfold bootScan at h ⊢
    by_cases hall : tts.all (fun tp => (m.topic :: seen).contains tp) = true
    · rw [if_pos hall] at h
      simp at h
    · rw [if_neg hall] at h ⊢
      have hrec := ih (m.topic :: seen) (updAcc jts acc m) h
      rw [hrec]
      rfl

theorem bootScan_some_spec (jts tts : List String) :
    ∀ (l : List LightMessage) (seen : List String) (acc acc2 : RunAcc)
      (tb : ℤ) (r : List LightMessage),
      bootScan jts tts seen acc l = (some (tb, r), acc2) →
      ∃ l1 m l2, l = l1 ++ m :: l2 ∧ r = m :: l2 ∧ tb = m.timestamp ∧
        acc2 = applyMsgs jts acc (l1 ++ [m]) := by
  intro l
  induction l with
  | nil =>
    intro seen acc acc2 tb r h
    simp [bootScan] at h
  | cons m rest ih =>
    intro seen acc acc2 tb r h
    unfold bootScan at h
    by_cases hall : tts.all (fun tp => (m.topic :: seen).contains tp) = true
    · rw [if_pos hall] at h
      obtain ⟨h1, h2⟩ := Prod.mk.injEq .. ▸ h
      obtain ⟨ht, hr⟩ : tb = m.timestamp ∧ r = m :: rest := by
        have := h1
        simp at this
        exact ⟨this.1.symm, this.2.symm⟩
      refine ⟨[], m, rest, by simp, hr, ht, ?_⟩
      rw [← h2]
      rfl
    · rw [if_neg hall] at h
      obtain ⟨l1, mm, l2, hl, hr, ht, hacc⟩ := ih (m.topic :: seen) (updAcc jts acc m) acc2 tb r h
      refine ⟨m :: l1, mm, l2, by rw [hl]; rfl, hr, ht, ?_⟩
      rw [hacc]
      rfl

theorem loadFrames_eq (b : BagData) {m0 : LightMessage} {rest0 : List LightMessage}
    (hs : sortedMessages b = m0 :: rest0) :
    loadFrames b = genFrames (jointTopicsOf b) ((lastTs b - bootstrapTs b).toNat / 33 + 2)
      (initRestOf b) (initAccOf b) (100 * bootstrapTs b) (100 * lastTs b) := by
  unfold loadFrames
  rw [hs]

theorem sortedMessages_ne_nil {b : BagData} (h : (lightMessages b).isEmpty = false) :
    sortedMessages b ≠ [] := by
  intro hc
  have hlen := length_sortMsgs (lightMessages b)
  unfold sortedMessages at hc
  rw [hc] at hlen
  cases hl : lightMessages b with
  | nil => rw [hl] at h; simp at h
  | cons a t => rw [hl] at hlen; simp at hlen

theorem bootstrapTs_le_lastTs (b : BagData) (hne : sortedMessages b ≠ []) :
    bootstrapTs b ≤ lastTs b := by
  obtain ⟨x, hx⟩ : ∃ x, (sortedMessages b).getLast? = some x := by
    cases hgl : (sortedMessages b).getLast? with
    | none => exact absurd (List.getLast?_eq_none_iff.mp hgl) hne
    | some x => exact ⟨x, rfl⟩
  have hlast : lastTs b = x.timestamp := by
    unfold lastTs
    rw [hx]
  have hp : (sortedMessages b).Pairwise (fun a c => a.timestamp ≤ c.timestamp) :=
    sortMsgs_pairwise (lightMessages b)
  rw [hlast]
  cases hboot : bootOf b with
  | mk fst acc =>
    cases fst with
    | none =>
      cases hs : sortedMessages b with
      | nil => exact absurd hs hne
      | cons m0 r =>
        have hb : bootstrapTs b = m0.timestamp := by
          unfold bootstrapTs
          rw [hboot, hs]
        rw [hb]
        refine sorted_le_last hp ?_ hx
        rw [hs]
        exact List.mem_cons_self m0 r
    | some p =>
      obtain ⟨tb, r⟩ := p
      have hb : bootstrapTs b = tb := by
        unfold bootstrapTs
        rw [hboot]
      rw [hb]
      obtain ⟨l1, m, l2, hl, -, ht, -⟩ :=
        bootScan_some_spec (jointTopicsOf b) (targetTopicsOf b) (sortedMessages b) [] emptyAcc
          acc tb r (by rw [← hboot]; rfl)
      rw [ht]
      refine sorted_le_last hp ?_ hx
      rw [hl]
      simp

theorem countCms_le_fuel (bts e : ℤ) :
    countCms (100 * bts) (100 * e) ≤ (e - bts).toNat / 33 + 2 := by
  unfold countCms
  by_cases h : 100 * bts ≤ 100 * e
  · rw [if_pos h]
    have h1 : (100 * e - 100 * bts).toNat = 100 * (e - bts).toNat := by omega
    rw [h1]
    have h2 : (100 * (e - bts).toNat) / 3333 ≤ (100 * (e - bts).toNat) / 3300 := by
      apply Nat.div_le_div_left (by norm_num) (by norm_num)
    have h3 : (100 * (e - bts).toNat) / 3300 = (e - bts).toNat / 33 := by
      have h33 : (3300 : ℕ) = 100 * 33 := by norm_num
      rw [h33, Nat.mul_div_mul_left _ _ (by norm_num)]
    omega
  · rw [if_neg h]
    omega

theorem loadFrames_length (b : BagData) {m0 : LightMessage} {rest0 : List LightMessage}
    (hs : sortedMessages b = m0 :: rest0) :
    (loadFrames b).length = countCms (100 * bootstrapTs b) (100 * lastTs b) := by
  rw [loadFrames_eq b hs]
  exact genFrames_length _ _ _ _ _ _ (countCms_le_fuel _ _)

theorem loadFrames_get? (b : BagData) {m0 : LightMessage} {rest0 : List LightMessage}
    (hs : sortedMessages b = m0 :: rest0) (k : ℕ)
    (hk : k < countCms (100 * bootstrapTs b) (100 * lastTs b)) :
    (loadFrames b).get? k =
      some (mkFrame (jointTopicsOf b) (100 * bootstrapTs b + k * stepCms)
        (applyMsgs (jointTopicsOf b) (initAccOf b)
          ((initRestOf b).takeWhile (msgLeB (100 * bootstrapTs b + k * stepCms))))) := by
  rw [loadFrames_eq b hs]
  exact genFrames_get? _ _ _ _ _ _ _ (countCms_le_fuel _ _) hk

theorem timestamps_length {s0 : ServiceState} {b : BagData} {d : Bool}
    (h : (loadFile s0 b).2 = Except.ok d) :
    (loadFile s0 b).1.timestamps.length =
      countCms (100 * bootstrapTs b) (100 * lastTs b) := by
  obtain ⟨-, -, hmsgs, -, -, hts, -, -, -, -, -, -⟩ := loadFile_ok_inv h
  cases hs : sortedMessages b with
  | nil => exact absurd hs (sortedMessages_ne_nil hmsgs)
  | cons m0 rest0 =>
    rw [hts, List.length_map, loadFrames_length b hs]

theorem timestamps_get? {s0 : ServiceState} {b : BagData} {d : Bool}
    (h : (loadFile s0 b).2 = Except.ok d) (k : ℕ)
    (hk : k < countCms (100 * bootstrapTs b) (100 * lastTs b)) :
    (loadFile s0 b).1.timestamps.get? k =
      some (roundCms (100 * bootstrapTs b + k * stepCms)) := by
  obtain ⟨-, -, hmsgs, -, -, hts, -, -, -, -, -, -⟩ := loadFile_ok_inv h
  cases hs : sortedMessages b with
  | nil => exact absurd hs (sortedMessages_ne_nil hmsgs)
  | cons m0 rest0 =>
    rw [hts, List.get?_eq_getElem?, List.getElem?_map, ← List.get?_eq_getElem?,
      loadFrames_get? b hs k hk]
    rfl

theorem roundCms_eq_ediv (x : ℤ) : roundCms x = (x + 50) / 100 := by
  unfold roundCms
  exact Int.fdiv_eq_ediv _ (by norm_num)

theorem jsRound_intCast (z : ℤ) : jsRound (z : ℚ) = z := by
  unfold jsRound
  rw [Int.floor_int_add]
  norm_num

theorem floor_div_step (D : ℤ) : ⌊((D : ℚ)) / stepMs⌋ = (100 * D) / 3333 := by
  unfold stepMs
  have h1 : ((D : ℚ)) / (3333 / 100) = ((100 * D : ℤ) : ℚ) / ((3333 : ℕ) : ℚ) := by
    push_cast
    ring
  rw [h1, Rat.floor_intCast_div_natCast]
  norm_num

/-- Claim C2: for every successfully loaded bag with at least one state
(joint) topic and at least one event (image) topic, the number of frames
produced equals `⌊(lastMessageTime − bootstrapTime) / 33.33⌋ + 1`, where
`lastTs` is the timestamp of the last message on a target topic and
`bootstrapTs` the chosen bootstrap time (exact rational arithmetic for the
33.33 ms step). -/
theorem frame_count_eq (s0 : ServiceState) (b : BagData) (d : Bool)
    (h : (loadFile s0 b).2 = Except.ok d)
    (hstate : jointTopicsOf b ≠ []) (hevent : imageTopicsOf b ≠ []) :
    ((loadFile s0 b).1.timestamps.length : ℤ) =
      ⌊((lastTs b : ℚ) - (bootstrapTs b : ℚ)) / stepMs⌋ + 1 := by
  have hmsgs : (lightMessages b).isEmpty = false := (loadFile_ok_inv h).2.2.1
  have hble := bootstrapTs_le_lastTs b (sortedMessages_ne_nil hmsgs)
  rw [timestamps_length h]
  unfold countCms
  rw [if_pos (by omega : (100 : ℤ) * bootstrapTs b ≤ 100 * lastTs b)]
  have hcast : (((lastTs b : ℚ)) - (bootstrapTs b : ℚ)) =
      ((lastTs b - bootstrapTs b : ℤ) : ℚ) := by
    push_cast
    ring
  rw [hcast, floor_div_step]
  have hD : (0 : ℤ) ≤ 100 * (lastTs b - bootstrapTs b) := by omega
  have h1 : (100 * lastTs b - 100 * bootstrapTs b).toNat =
      (100 * (lastTs b - bootstrapTs b)).toNat := by omega
  rw [h1]
  push_cast [Int.ofNat_tdiv]
  rw [Int.toNat_of_nonneg hD]

/-- Witness for C2 at the concrete 3-frame bag. -/
theorem frame_count_eq_witness :
    ((loadFile emptyState cexBag).1.timestamps.length : ℤ) =
      ⌊((lastTs cexBag : ℚ) - (bootstrapTs cexBag : ℚ)) / stepMs⌋ + 1 :=
  frame_count_eq emptyState cexBag false rfl (by decide) (by decide)

/-- Claim C3: for every successfully loaded bag the frame timestamps are
non-decreasing; for `i ≥ 1` the difference `timestamps[i] −
timestamps[i−1]` is within 1 ms of the fixed 33.33 ms step (it is always 33
or 34 ms); and the first frame's timestamp is the bootstrap time rounded to
the nearest millisecond. -/
theorem frame_spacing (s0 : ServiceState) (b : BagData) (d : Bool)
    (h : (loadFile s0 b).2 = Except.ok d) :
    (loadFile s0 b).1.timestamps.get? 0 = some (jsRound (bootstrapTs b : ℚ)) ∧
    ∀ (i : ℕ) (ti1 ti : ℤ), 1 ≤ i →
      (loadFile s0 b).1.timestamps.get? (i - 1) = some ti1 →
      (loadFile s0 b).1.timestamps.get? i = some ti →
      ti1 ≤ ti ∧ |((ti : ℚ) - (ti1 : ℚ)) - stepMs| ≤ 1 := by
  have hmsgs : (lightMessages b).isEmpty = false := (loadFile_ok_inv h).2.2.1
  have hble := bootstrapTs_le_lastTs b (sortedMessages_ne_nil hmsgs)
  have hpos : 1 ≤ countCms (100 * bootstrapTs b) (100 * lastTs b) :=
    countCms_pos (by omega)
  constructor
  · rw [timestamps_get? h 0 (by omega)]
    rw [jsRound_intCast]
    have : roundCms (100 * bootstrapTs b + (0 : ℕ) * stepCms) = bootstrapTs b := by
      rw [roundCms_eq_ediv]
      unfold stepCms
      omega
    rw [this]
  · intro i ti1 ti hi h1 h2
    have hk2 : i < countCms (100 * bootstrapTs b) (100 * lastTs b) := by
      have hne : (loadFile s0 b).1.timestamps.get? i ≠ none := by
        rw [h2]
        simp
      rw [Ne, List.get?_eq_none] at hne
      rw [timestamps_length h] at hne
      omega
    obtain ⟨k, rfl⟩ : ∃ k, i = k + 1 := ⟨i - 1, by omega⟩
    have hk1 : k < countCms (100 * bootstrapTs b) (100 * lastTs b) := by omega
    rw [show k + 1 - 1 = k from rfl, timestamps_get? h k hk1] at h1
    rw [timestamps_get? h (k + 1) hk2] at h2
    have e1 : ti1 = roundCms (100 * bootstrapTs b + (k : ℕ) * stepCms) := by
      exact (Option.some.injEq _ _).mp h1.symm
    have e2 : ti = roundCms (100 * bootstrapTs b + ((k : ℕ) + 1 : ℕ) * stepCms) := by
      exact (Option.some.injEq _ _).mp h2.symm
    rw [roundCms_eq_ediv] at e1 e2
    unfold stepCms at e1 e2
    have harg : 100 * bootstrapTs b + (((k : ℕ) + 1 : ℕ) : ℤ) * 3333 =
        100 * bootstrapTs b + (k : ℕ) * 3333 + 3333 := by
      push_cast
      ring
    rw [harg] at e2
    have hdiff : ti1 ≤ ti ∧ (ti - ti1 = 33 ∨ ti - ti1 = 34) := by omega
    refine ⟨hdiff.1, ?_⟩
    have hcast : ((ti : ℚ)) - (ti1 : ℚ) = ((ti - ti1 : ℤ) : ℚ) := by
      push_cast
      ring
    rw [hcast]
    rcases hdiff.2 with hd | hd <;>
      rw [hd] <;> rw [abs_le] <;> constructor <;> norm_num [stepMs]

/-- Witness for C3: frames 1 and 2 of the concrete bag sit 34 ms apart. -/
theorem frame_spacing_witness :
    (33 : ℤ) ≤ 67 ∧ |((67 : ℤ) : ℚ) - ((33 : ℤ) : ℚ) - stepMs| ≤ 1 :=
  (frame_spacing emptyState cexBag false rfl).2 2 33 67 (by norm_num) (by decide) (by decide)

theorem bootScan_fst_none (jts tts : List String) :
    ∀ (l : List LightMessage) (seen : List String) (acc : RunAcc),
      (∀ k : ℕ, tts.all
        (fun tp => ((((l.take k).map (fun m => m.topic)).reverse) ++ seen).contains tp)
          = false) →
      (bootScan jts tts seen acc l).1 = none := by
  intro l
  induction l with
  | nil => intro seen acc _; rfl
  | cons m rest ih =>
    intro seen acc h
    unfold bootScan
    have h1 := h 1
    simp only [List.take_succ_cons, List.take_zero, List.map_cons, List.map_nil,
      List.reverse_cons, List.reverse_nil, List.nil_append, List.singleton_append] at h1
    rw [if_neg (by rw [h1]; exact Bool.false_ne_true)]
    refine ih (m.topic :: seen) (updAcc jts acc m) ?_
    intro k
    have h2 := h (k + 1)
    simp only [List.take_succ_cons, List.map_cons, List.reverse_cons, List.append_assoc,
      List.singleton_append] at h2
    exact h2

/-- Claim C8: if the full-topic-coverage bootstrap condition is never met
over the whole message set (no prefix of the sorted stream has seen every
target topic) while target topics and messages exist, the load still
succeeds, the degraded flag (the incomplete-coverage warning) is recorded
in the result, the bootstrap time is the first sorted message's timestamp,
and frame 0 carries it. -/
theorem degraded_bootstrap (s0 : ServiceState) (b : BagData)
    (hopen : b.openOk = true)
    (htargets : (targetTopicsOf b).isEmpty = false)
    (hmsgs : (lightMessages b).isEmpty = false)
    (hcov : ∀ k : ℕ, (targetTopicsOf b).all
        (fun tp => (((sortedMessages b).take k).map (fun m => m.topic)).reverse.contains tp)
          = false) :
    ∃ m0 rest0, sortedMessages b = m0 :: rest0 ∧
      (loadFile s0 b).2 = Except.ok true ∧
      bootstrapTs b = m0.timestamp ∧
      (loadFile s0 b).1.timestamps.get? 0 = some m0.timestamp := by
  cases hs : sortedMessages b with
  | nil => exact absurd hs (sortedMessages_ne_nil hmsgs)
  | cons m0 rest0 =>
    have hnone : (bootOf b).1 = none := by
      unfold bootOf
      apply bootScan_fst_none
      intro k
      have hk := hcov k
      simpa using hk
    have hboot : bootstrapTs b = m0.timestamp := by
      unfold bootstrapTs
      rw [hnone, hs]
    have hok : (loadFile s0 b).2 = Except.ok true := by
      unfold loadFile
      have h1 : ¬(b.openOk = false) := by simp [hopen]
      have h2 : ¬((targetTopicsOf b).isEmpty = true) := by simp [htargets]
      have h3 : ¬((lightMessages b).isEmpty = true) := by simp [hmsgs]
      simp only [if_neg h1, if_neg h2, if_neg h3, hnone, Option.isNone_none]
    have hble : bootstrapTs b ≤ lastTs b :=
      bootstrapTs_le_lastTs b (by rw [hs]; exact List.cons_ne_nil _ _)
    have ht0 := timestamps_get? hok 0 (countCms_pos (by omega))
    refine ⟨m0, rest0, rfl, hok, hboot, ?_⟩
    rw [ht0]
    congr 1
    rw [roundCms_eq_ediv]
    unfold stepCms
    rw [← hboot]
    omega

/-- A bag whose joint topic has a connection but no message: the
full-coverage condition is never met. -/
def degBag : BagData :=
  { openOk := true
    connections := [⟨"/c", sensorImageType⟩, ⟨"/j", sensorJointStateType⟩]
    messages := [⟨"/c", ⟨0, 0⟩, payloadA⟩] }

/-- Witness for C8 at the concrete degraded bag. -/
theorem degraded_bootstrap_witness :
    ∃ m0 rest0, sortedMessages degBag = m0 :: rest0 ∧
      (loadFile emptyState degBag).2 = Except.ok true ∧
      bootstrapTs degBag = m0.timestamp ∧
      (loadFile emptyState degBag).1.timestamps.get? 0 = some m0.timestamp :=
  degraded_bootstrap emptyState degBag rfl (by decide) (by decide)
    (by
      intro k
      cases k with
      | zero => decide
      | succ n =>
        have hsm : sortedMessages degBag = [⟨0, ⟨0, 0⟩, "/c", none⟩] := by decide
        rw [hsm, List.take_succ_cons, List.take_nil]
        decide)

/-- The frame `getFrameAt` materializes for index `i` on a cache miss
(every field it reads is immutable after load). -/
def materialize (o : FetchOracle) (s : ServiceState) (i : ℤ) : ParsedFrame :=
  { timestamp := (s.timestamps.get? i.toNat).getD 0
    index := i
    images := buildImages o s.topicMetadata ((s.frameImageIndex.get? i.toNat).getD [])
    jointStateMap := (s.historicalJointData.get? i.toNat).getD [] }

/-- Cache coherence: every cached entry is the materialization of some
in-range index whose timestamp is the entry's key. -/
def cacheOK (o : FetchOracle) (s : ServiceState) (cache : List (ℤ × ParsedFrame)) : Prop :=
  ∀ p ∈ cache, ∃ j : ℤ, ¬(j < 0 ∨ (s.timestamps.length : ℤ) ≤ j) ∧
    (s.timestamps.get? j.toNat).getD 0 = p.1 ∧ p.2 = materialize o s j

theorem mem_updA {α β : Type} [DecidableEq α] {p : α × β} {k : α} {v : β}
    {l : List (α × β)} (h : p ∈ updA k v l) : p = (k, v) ∨ p ∈ l := by
  induction l with
  | nil => simpa [updA] using h
  | cons q t ih =>
    obtain ⟨a, c⟩ := q
    unfold updA at h
    by_cases ha : a = k
    · rw [if_pos ha] at h
      rcases List.mem_cons.mp h with h1 | h1
      · exact Or.inl h1
      · exact Or.inr (List.mem_cons_of_mem _ h1)
    · rw [if_neg ha] at h
      rcases List.mem_cons.mp h with h1 | h1
      · exact Or.inr (h1 ▸ List.mem_cons_self _ _)
      · rcases ih h1 with h2 | h2
        · exact Or.inl h2
        · exact Or.inr (List.mem_cons_of_mem _ h2)

theorem mem_eraseA {α β : Type} [DecidableEq α] {p : α × β} {k : α}
    {l : List (α × β)} (h : p ∈ eraseA k l) : p ∈ l := by
  induction l with
  | nil => simpa [eraseA] using h
  | cons q t ih =>
    obtain ⟨a, c⟩ := q
    unfold eraseA at h
    by_cases ha : a = k
    · rw [if_pos ha] at h
      exact List.mem_cons_of_mem _ h
    · rw [if_neg ha] at h
      rcases List.mem_cons.mp h with h1 | h1
      · exact h1 ▸ List.mem_cons_self _ _
      · exact List.mem_cons_of_mem _ (ih h1)

theorem mem_evictIfOver {p : ℤ × ParsedFrame} {l : List (ℤ × ParsedFrame)}
    (h : p ∈ evictIfOver l) : p ∈ l := by
  unfold evictIfOver at h
  by_cases h31 : 30 < l.length
  · rw [if_pos h31] at h
    cases l with
    | nil => simpa using h
    | cons q t =>
      obtain ⟨a, c⟩ := q
      exact mem_eraseA h
  · rw [if_neg h31] at h
    exact h

theorem lookupA_mem {α β : Type} [DecidableEq α] {k : α} {v : β} {l : List (α × β)}
    (h : lookupA k l = some v) : (k, v) ∈ l := by
  induction l with
  | nil => simp [lookupA] at h
  | cons q t ih =>
    obtain ⟨a, c⟩ := q
    unfold lookupA at h
    by_cases ha : a = k
    · rw [if_pos ha] at h
      subst ha
      obtain rfl : c = v := by simpa using h
      exact List.mem_cons_self _ _
    · rw [if_neg ha] at h
      exact List.mem_cons_of_mem _ (ih h)

theorem timestamps_injective {s0 : ServiceState} {b : BagData} {d : Bool}
    (h : (loadFile s0 b).2 = Except.ok d) :
    ∀ (k1 k2 : ℕ) (v : ℤ), (loadFile s0 b).1.timestamps.get? k1 = some v →
      (loadFile s0 b).1.timestamps.get? k2 = some v → k1 = k2 := by
  have hmono : StrictMono (fun k : ℕ => roundCms (100 * bootstrapTs b + k * stepCms)) := by
    apply strictMono_nat_of_lt_succ
    intro n
    simp only [roundCms_eq_ediv]
    unfold stepCms
    have hc : (((n : ℕ) + 1 : ℕ) : ℤ) * 3333 = (n : ℕ) * 3333 + 3333 := by
      push_cast
      ring
    rw [hc]
    omega
  intro k1 k2 v h1 h2
  have hlen := timestamps_length h
  have hk1 : k1 < countCms (100 * bootstrapTs b) (100 * lastTs b) := by
    have : (loadFile s0 b).1.timestamps.get? k1 ≠ none := by rw [h1]; simp
    rw [Ne, List.get?_eq_none] at this
    omega
  have hk2 : k2 < countCms (100 * bootstrapTs b) (100 * lastTs b) := by
    have : (loadFile s0 b).1.timestamps.get? k2 ≠ none := by rw [h2]; simp
    rw [Ne, List.get?_eq_none] at this
    omega
  rw [timestamps_get? h k1 hk1] at h1
  rw [timestamps_get? h k2 hk2] at h2
  have hv1 : roundCms (100 * bootstrapTs b + k1 * stepCms) = v := by simpa using h1
  have hv2 : roundCms (100 * bootstrapTs b + k2 * stepCms) = v := by simpa using h2
  exact hmono.injective (by rw [hv1, hv2] : _ = _)

theorem getFrameAt_step_cacheOK (o : FetchOracle) (s : ServiceState)
    (c : List (ℤ × ParsedFrame)) (hOK : cacheOK o s c) (i : ℤ) :
    ∃ c', (getFrameAt o { s with frameCache := c } i).2 = { s with frameCache := c' } ∧
      cacheOK o s c' := by
  obtain ⟨sb, st, sm, sh, si, sj, sf, sc⟩ := s
  unfold getFrameAt
  dsimp only
  cases sb with
  | none => exact ⟨c, rfl, hOK⟩
  | some bg =>
    by_cases hr : i < 0 ∨ ((st.length : ℤ) ≤ i)
    · rw [if_pos hr]
      exact ⟨c, rfl, hOK⟩
    · rw [if_neg hr]
      cases hl : lookupA ((st.get? i.toNat).getD 0) c with
      | some f =>
        exact ⟨c, rfl, hOK⟩
      | none =>
        refine ⟨_, rfl, ?_⟩
        intro p hp
        rcases mem_updA (mem_evictIfOver hp) with h1 | h1
        · exact ⟨i, hr, by rw [h1], by rw [h1]; rfl⟩
        · exact hOK p h1

theorem runCalls_cacheOK (o : FetchOracle) (s : ServiceState) :
    ∀ (L : List ℤ) (c : List (ℤ × ParsedFrame)), cacheOK o s c →
      ∃ c', runCalls o { s with frameCache := c } L = { s with frameCache := c' } ∧
        cacheOK o s c' := by
  intro L
  induction L with
  | nil => intro c hOK; exact ⟨c, rfl, hOK⟩
  | cons i L ih =>
    intro c hOK
    obtain ⟨c1, hstep, hOK1⟩ := getFrameAt_step_cacheOK o s c hOK i
    have hrw : runCalls o { s with frameCache := c } (i :: L) =
        runCalls o ((getFrameAt o { s with frameCache := c } i).2) L := rfl
    rw [hrw, hstep]
    exact ih c1 hOK1

theorem getFrameAt_fst_on_cache (o : FetchOracle) (s : ServiceState)
    (c : List (ℤ × ParsedFrame)) (hOK : cacheOK o s c)
    (hinj : ∀ (k1 k2 : ℕ) (v : ℤ), s.timestamps.get? k1 = some v →
      s.timestamps.get? k2 = some v → k1 = k2)
    (hcache : s.frameCache = []) (i : ℤ) :
    (getFrameAt o { s with frameCache := c } i).1 = (getFrameAt o s i).1 := by
  obtain ⟨sb, st, sm, sh, si, sj, sf, sc⟩ := s
  simp only at hinj hOK hcache
  subst hcache
  unfold getFrameAt
  dsimp only
  cases sb with
  | none => rfl
  | some bg =>
    by_cases hr : i < 0 ∨ ((st.length : ℤ) ≤ i)
    · rw [if_pos hr, if_pos hr]
    · rw [if_neg hr, if_neg hr]
      have hmiss : lookupA ((st.get? i.toNat).getD 0)
          ([] : List (ℤ × ParsedFrame)) = none := rfl
      rw [hmiss]
      cases hl : lookupA ((st.get? i.toNat).getD 0) c with
      | none => rfl
      | some f =>
        obtain ⟨j, hjr, hjts, hjf⟩ := hOK _ (lookupA_mem hl)
        simp only at hjr hjts hjf
        have hi0 : 0 ≤ i := by omega
        have hj0 : 0 ≤ j := by omega
        have hilt : i.toNat < st.length := by
          rw [Int.toNat_lt hi0]
          omega
        have hjlt : j.toNat < st.length := by
          rw [Int.toNat_lt hj0]
          omega
        have hgi : st.get? i.toNat = some ((st.get? i.toNat).getD 0) := by
          rw [List.get?_eq_getElem?, List.getElem?_eq_getElem hilt]
          rfl
        have hgj : st.get? j.toNat = some ((st.get? i.toNat).getD 0) := by
          rw [List.get?_eq_getElem?, List.getElem?_eq_getElem hjlt]
          rw [List.get?_eq_getElem?, List.getElem?_eq_getElem hjlt] at hjts
          simp at hjts
          simp [hjts]
        have hnat : j.toNat = i.toNat := hinj j.toNat i.toNat _ hgj hgi
        have hij : j = i := by omega
        rw [hjf, hij]
        rfl

/-- Claim C7: idempotence of `getFrameAt` — after any sequence of prior
calls, requesting index `i` yields exactly the frame that a fresh post-load
call yields (same decoded content for every topic); in particular a cache
hit returns the cached materialized frame unchanged. -/
theorem getFrameAt_idempotent (s0 : ServiceState) (b : BagData) (d : Bool)
    (o : FetchOracle) (h : (loadFile s0 b).2 = Except.ok d) (L : List ℤ) (i : ℤ) :
    (getFrameAt o (runCalls o (loadFile s0 b).1 L) i).1 =
      (getFrameAt o (loadFile s0 b).1 i).1 := by
  obtain ⟨-, -, -, -, -, -, -, -, -, -, -, hcache⟩ := loadFile_ok_inv h
  have heta : { (loadFile s0 b).1 with frameCache := ([] : List (ℤ × ParsedFrame)) } =
      (loadFile s0 b).1 := by
    rw [← hcache]
  have hOK0 : cacheOK o (loadFile s0 b).1 [] := by
    intro p hp
    simp at hp
  obtain ⟨c', hrun, hOK⟩ := runCalls_cacheOK o (loadFile s0 b).1 L [] hOK0
  conv_lhs => rw [← heta]
  rw [hrun]
  exact getFrameAt_fst_on_cache o (loadFile s0 b).1 c' hOK
    (timestamps_injective h) hcache i

/-- Witness for C7: repeated and interleaved requests for frame 0. -/
theorem getFrameAt_idempotent_witness :
    (getFrameAt oracleB (runCalls oracleB (loadFile emptyState cexBag).1 [0, 1, 0]) 0).1 =
      (getFrameAt oracleB (loadFile emptyState cexBag).1 0).1 :=
  getFrameAt_idempotent emptyState cexBag false oracleB rfl [0, 1, 0] 0

/-- The flattened joint value stored in a `currentJoints` object. -/
def jointAtJ (joints : List (String × Option JointStateMsg)) (tp : String) :
    Option JointStateMsg :=
  match lookupA tp joints with
  | some dd => dd
  | none => none

/-- The flattened joint value held by a running accumulator. -/
def jointAt (acc : RunAcc) (tp : String) : Option JointStateMsg :=
  jointAtJ acc.joints tp

/-- Last-value-wins reading of a message sublist, with a fallback. -/
def dataOr (x : Option LightMessage) (fallback : Option JointStateMsg) :
    Option JointStateMsg :=
  match x with
  | some m => m.data
  | none => fallback

theorem dataOr_none (x : Option LightMessage) :
    dataOr x none = x.bind (fun m => m.data) := by
  cases x <;> rfl

theorem or_eq_none {β : Type} {a b : Option β} (h : a.or b = none) :
    a = none ∧ b = none := by
  cases a with
  | none => exact ⟨rfl, h⟩
  | some x => simp [Option.or] at h

theorem lastOn_append (tp : String) (a b : List LightMessage) :
    lastOn tp (a ++ b) = (lastOn tp b).or (lastOn tp a) := by
  unfold lastOn
  rw [List.filter_append, List.getLast?_append]

theorem lastOn_cons (tp : String) (m : LightMessage) (l : List LightMessage) :
    lastOn tp (m :: l) = (lastOn tp l).or (if m.topic = tp then some m else none) := by
  rw [show m :: l = [m] ++ l from rfl, lastOn_append]
  congr 1
  unfold lastOn msgOnTopicB
  by_cases hm : m.topic = tp <;> simp [hm, List.filter]

theorem lastOn_some_mem {tp : String} {l : List LightMessage} {mm : LightMessage}
    (h : lastOn tp l = some mm) : mm ∈ l ∧ mm.topic = tp := by
  unfold lastOn at h
  have hmem : mm ∈ l.filter (msgOnTopicB tp) := by
    obtain ⟨hne, hx⟩ := List.mem_getLast?_eq_getLast (Option.mem_def.mpr h)
    rw [hx]
    exact List.getLast_mem hne
  rw [List.mem_filter] at hmem
  refine ⟨hmem.1, ?_⟩
  have h2 := hmem.2
  unfold msgOnTopicB at h2
  simpa using h2

theorem jointAt_applyMsgs (jts : List String) {tp : String}
    (htp : jts.contains tp = true) :
    ∀ (l : List LightMessage) (acc : RunAcc),
      jointAt (applyMsgs jts acc l) tp = dataOr (lastOn tp l) (jointAt acc tp) := by
  intro l
  induction l with
  | nil => intro acc; rfl
  | cons m rest ih =>
    intro acc
    have hstep : applyMsgs jts acc (m :: rest) = applyMsgs jts (updAcc jts acc m) rest := rfl
    rw [hstep, ih, lastOn_cons]
    by_cases hmt : m.topic = tp
    · rw [if_pos hmt]
      have hacc : jointAt (updAcc jts acc m) tp = m.data := by
        unfold updAcc
        have hcont : jts.contains m.topic = true := by rw [hmt]; exact htp
        rw [if_pos hcont]
        show jointAtJ (updA m.topic m.data acc.joints) tp = m.data
        unfold jointAtJ
        rw [hmt, lookupA_updA_self]
      rw [hacc]
      cases hl : lastOn tp rest <;> rfl
    · rw [if_neg hmt, Option.or_none]
      have hacc : jointAt (updAcc jts acc m) tp = jointAt acc tp := by
        unfold updAcc
        by_cases hc : jts.contains m.topic = true
        · rw [if_pos hc]
          show jointAtJ (updA m.topic m.data acc.joints) tp = jointAtJ acc.joints tp
          unfold jointAtJ
          rw [lookupA_updA_ne _ _ (fun hh => hmt hh.symm)]
        · rw [if_neg hc]
          rfl
      rw [hacc]

theorem lookupA_snapshot_fold (joints : List (String × Option JointStateMsg)) (tp : String) :
    ∀ (jts : List String) (init : List (String × JointStateMsg)),
      lookupA tp (jts.foldl (fun fj tpp =>
          match lookupA tpp joints with
          | some (some raw) => updA tpp (normalizeJoint raw) fj
          | _ => fj) init) =
        if tp ∈ jts then
          (Option.map normalizeJoint (jointAtJ joints tp)).or (lookupA tp init)
        else lookupA tp init := by
  intro jts
  induction jts with
  | nil => intro init; simp
  | cons j rest ih =>
    intro init
    rw [List.foldl_cons, ih]
    have hstep : lookupA tp (match lookupA j joints with
        | some (some raw) => updA j (normalizeJoint raw) init
        | _ => init) =
        if j = tp then (Option.map normalizeJoint (jointAtJ joints j)).or (lookupA tp init)
        else lookupA tp init := by
      by_cases hj : j = tp
      · rw [if_pos hj]
        cases hlj : lookupA j joints with
        | none => simp [jointAtJ, hlj]
        | some dd =>
          cases dd with
          | none => simp [jointAtJ, hlj]
          | some raw =>
            subst hj
            simp [jointAtJ, hlj, lookupA_updA_self]
      · rw [if_neg hj]
        cases hlj : lookupA j joints with
        | none => rfl
        | some dd =>
          cases dd with
          | none => rfl
          | some raw => exact lookupA_updA_ne _ _ (fun hh => hj hh.symm)
    rw [hstep]
    have habs : ∀ (V X : Option JointStateMsg), V.or (V.or X) = V.or X := by
      intro V X
      cases V <;> rfl
    by_cases hmem : tp ∈ rest
    · rw [if_pos hmem, if_pos (List.mem_cons_of_mem _ hmem)]
      by_cases hj : j = tp
      · rw [if_pos hj, hj, habs]
      · rw [if_neg hj]
    · rw [if_neg hmem]
      by_cases hj : j = tp
      · rw [if_pos hj, if_pos (hj ▸ List.mem_cons_self _ _), hj]
      · rw [if_neg hj, if_neg ?_]
        rw [List.mem_cons]
        rintro (h1 | h1)
        · exact hj h1.symm
        · exact hmem h1

theorem lookupA_snapshotJointData (jts : List String)
    (joints : List (String × Option JointStateMsg)) (tp : String) (htp : tp ∈ jts) :
    lookupA tp (snapshotJointData jts joints) =
      Option.map normalizeJoint (jointAtJ joints tp) := by
  unfold snapshotJointData
  rw [lookupA_snapshot_fold, if_pos htp]
  rw [show lookupA tp ([] : List (String × JointStateMsg)) = none from rfl, Option.or_none]

theorem takeWhile_eq_filter_of_sorted {l : List LightMessage}
    (hp : l.Pairwise (fun a c => a.timestamp ≤ c.timestamp)) (t : ℤ) :
    l.takeWhile (msgLeB t) = l.filter (msgLeB t) := by
  induction l with
  | nil => rfl
  | cons m rest ih =>
    rw [List.pairwise_cons] at hp
    obtain ⟨hmr, hpr⟩ := hp
    by_cases hm : msgLeB t m = true
    · simp only [List.takeWhile_cons, List.filter_cons, hm, if_true]
      rw [ih hpr]
    · have hrest : rest.filter (msgLeB t) = [] := by
        rw [List.filter_eq_nil_iff]
        intro a ha
        have hle := hmr a ha
        unfold msgLeB at hm ⊢
        simp at hm ⊢
        omega
      simp [List.takeWhile_cons, List.filter_cons, hm, hrest]

theorem msgLeB_eq_ratLe (b : BagData) (k : ℕ) (m : LightMessage) :
    decide ((m.timestamp : ℚ) ≤ nominalTime b k) =
      msgLeB (100 * bootstrapTs b + k * stepCms) m := by
  unfold msgLeB
  have hiff : ((m.timestamp : ℚ) ≤ nominalTime b k) ↔
      (m.timestamp * 100 ≤ 100 * bootstrapTs b + k * stepCms) := by
    unfold nominalTime stepMs
    rw [show (bootstrapTs b : ℚ) + (k : ℚ) * (3333 / 100) =
        ((100 * bootstrapTs b + (k : ℤ) * stepCms : ℤ) : ℚ) / 100 by
      unfold stepCms
      push_cast
      ring]
    rw [le_div_iff₀ (by norm_num : (0 : ℚ) < 100)]
    constructor
    · intro hh
      exact_mod_cast hh
    · intro hh
      exact_mod_cast hh
  exact decide_eq_decide.mpr hiff

theorem joint_msg_data_some {b : BagData} {tp : String} (htp : tp ∈ jointTopicsOf b)
    {mm : LightMessage} (hm : mm ∈ sortedMessages b) (ht : mm.topic = tp) :
    ∃ p, mm.data = some p := by
  rw [show sortedMessages b = sortMsgs (lightMessages b) from rfl, mem_sortMsgs] at hm
  unfold lightMessages at hm
  rw [List.mem_filterMap] at hm
  obtain ⟨rm, hrm, hfm⟩ := hm
  by_cases hc : (targetTopicsOf b).contains rm.topic = true
  · rw [if_pos hc] at hfm
    have hmm := (Option.some.injEq _ _).mp hfm
    subst hmm
    have htop : rm.topic = tp := ht
    have hcj : (jointTopicsOf b).contains rm.topic = true := by
      rw [htop]
      simpa using htp
    refine ⟨rm.joint, ?_⟩
    show (if (jointTopicsOf b).contains rm.topic = true then some rm.joint else none) =
      some rm.joint
    rw [if_pos hcj]
  · rw [if_neg hc] at hfm
    exact absurd hfm (by simp)

theorem dataOr_spec_eq (X Z : Option LightMessage) (B : Option JointStateMsg)
    (hdata : ∀ mm, X = some mm → ∃ p, mm.data = some p)
    (hnone : X = none → B = dataOr Z none) :
    dataOr X B = ((X.or Z).bind (fun m => m.data)).or B := by
  cases X with
  | some mm =>
    obtain ⟨p, hp⟩ := hdata mm rfl
    simp [dataOr, Option.or, hp]
  | none =>
    rw [hnone rfl]
    cases Z with
    | none => rfl
    | some mz => cases hq : mz.data <;> simp [dataOr, Option.or, hq]

/-- Claim C1 (amended): for every successfully loaded bag, frame index `k`
and state (joint) topic `tp`, the stored joint snapshot at `tp` equals —
after the name-defaulting normalization `snapshotJointData` applies — the
payload of the latest message on `tp` with timestamp at most the frame's
*nominal un-rounded* time `bootstrap + k·33.33` (not the stored, rounded
timestamp: a message falling in the half-millisecond rounding gap is
excluded), falling back to the value the running accumulator held when
bootstrap was decided if no such message exists. -/
theorem zoh_snapshot (s0 : ServiceState) (b : BagData) (d : Bool)
    (h : (loadFile s0 b).2 = Except.ok d) (tp : String)
    (htp : tp ∈ jointTopicsOf b) (k : ℕ)
    (hk : k < (loadFile s0 b).1.timestamps.length) :
    lookupA tp (((loadFile s0 b).1.historicalJointData.get? k).getD []) =
      Option.map normalizeJoint
        ((zohJointSpec b tp (nominalTime b k)).or (bootAccJoint b tp)) := by
  obtain ⟨-, -, hmsgs, -, -, -, -, hhjd, -, -, -, -⟩ := loadFile_ok_inv h
  have hkc : k < countCms (100 * bootstrapTs b) (100 * lastTs b) := by
    rw [timestamps_length h] at hk
    exact hk
  have hcont : (jointTopicsOf b).contains tp = true := by simpa using htp
  have hknn : (0 : ℤ) ≤ (k : ℤ) * stepCms := by
    apply mul_nonneg (Int.natCast_nonneg k)
    unfold stepCms
    norm_num
  have hp : (sortedMessages b).Pairwise (fun a c => a.timestamp ≤ c.timestamp) :=
    sortMsgs_pairwise (lightMessages b)
  cases hs : sortedMessages b with
  | nil => exact absurd hs (sortedMessages_ne_nil hmsgs)
  | cons m0 rest0 =>
    have hget := loadFrames_get? b hs k hkc
    have hL : ((loadFile s0 b).1.historicalJointData.get? k).getD [] =
        snapshotJointData (jointTopicsOf b)
          (applyMsgs (jointTopicsOf b) (initAccOf b)
            ((initRestOf b).takeWhile
              (msgLeB (100 * bootstrapTs b + k * stepCms)))).joints := by
      rw [hhjd, List.get?_eq_getElem?, List.getElem?_map, ← List.get?_eq_getElem?, hget]
      rfl
    rw [hL, lookupA_snapshotJointData _ _ _ htp]
    congr 1
    have hLk := jointAt_applyMsgs (jointTopicsOf b) hcont
      ((initRestOf b).takeWhile (msgLeB (100 * bootstrapTs b + k * stepCms))) (initAccOf b)
    rw [show jointAtJ (applyMsgs (jointTopicsOf b) (initAccOf b)
        ((initRestOf b).takeWhile (msgLeB (100 * bootstrapTs b + k * stepCms)))).joints tp =
      jointAt (applyMsgs (jointTopicsOf b) (initAccOf b)
        ((initRestOf b).takeWhile (msgLeB (100 * bootstrapTs b + k * stepCms)))) tp from rfl]
    rw [hLk]
    have hspec : zohJointSpec b tp (nominalTime b k) =
        (lastOn tp ((sortedMessages b).filter
          (msgLeB (100 * bootstrapTs b + k * stepCms)))).bind (fun m => m.data) := by
      unfold zohJointSpec
      rw [List.filter_congr (fun m _ => msgLeB_eq_ratLe b k m)]
    rw [hspec]
    cases hboot : bootOf b with
    | mk fst acc0 =>
      cases fst with
      | some p =>
        obtain ⟨tb, r⟩ := p
        obtain ⟨l1, m, l2, hl, hr, htb, hacc⟩ :=
          bootScan_some_spec (jointTopicsOf b) (targetTopicsOf b) (sortedMessages b)
            [] emptyAcc acc0 tb r
            (by rw [show bootScan (jointTopicsOf b) (targetTopicsOf b) [] emptyAcc
                (sortedMessages b) = bootOf b from rfl, hboot])
        have hIR : initRestOf b = m :: l2 := by
          unfold initRestOf
          rw [show (bootOf b).1 = some (tb, r) from by rw [hboot]]
          exact hr
        have hIA : initAccOf b = acc0 := by
          unfold initAccOf
          rw [hboot]
        have hBT : bootstrapTs b = tb := by
          unfold bootstrapTs
          rw [show (bootOf b).1 = some (tb, r) from by rw [hboot]]
        have hplsplit := List.pairwise_append.mp (hl ▸ hp)
        obtain ⟨hp1, hp2, hcross⟩ := hplsplit
        have hpl2 : l2.Pairwise (fun a c => a.timestamp ≤ c.timestamp) :=
          (List.pairwise_cons.mp hp2).2
        have hml2 : ∀ z ∈ l2, m.timestamp ≤ z.timestamp :=
          (List.pairwise_cons.mp hp2).1
        have hmtc : msgLeB (100 * bootstrapTs b + k * stepCms) m = true := by
          unfold msgLeB stepCms
          rw [hBT, htb]
          unfold stepCms at hknn
          simp
          omega
        have hl1 : ∀ a ∈ l1, msgLeB (100 * bootstrapTs b + k * stepCms) a = true := by
          intro a ha
          have hle : a.timestamp ≤ m.timestamp :=
            hcross a ha m (List.mem_cons_self _ _)
          unfold msgLeB stepCms
          rw [hBT, htb]
          unfold stepCms at hknn
          simp
          omega
        have hW : (initRestOf b).takeWhile (msgLeB (100 * bootstrapTs b + k * stepCms)) =
            m :: l2.takeWhile (msgLeB (100 * bootstrapTs b + k * stepCms)) := by
          rw [hIR, List.takeWhile_cons, if_pos hmtc]
        have hfilter : (sortedMessages b).filter
            (msgLeB (100 * bootstrapTs b + k * stepCms)) =
            l1 ++ m :: l2.takeWhile (msgLeB (100 * bootstrapTs b + k * stepCms)) := by
          rw [hl, List.filter_append]
          congr 1
          · exact List.filter_eq_self.mpr hl1
          · rw [List.filter_cons, if_pos hmtc,
              ← takeWhile_eq_filter_of_sorted hpl2]
        have hacc0 : jointAt acc0 tp = dataOr (lastOn tp (l1 ++ [m])) none := by
          rw [hacc, jointAt_applyMsgs _ hcont]
          rfl
        have hBA : bootAccJoint b tp = jointAt acc0 tp := by
          unfold bootAccJoint jointAt jointAtJ
          rw [hboot]
        rw [hW, hfilter, hBA, hIA, hacc0,
          lastOn_append tp l1
            (m :: l2.takeWhile (msgLeB (100 * bootstrapTs b + k * stepCms)))]
        apply dataOr_spec_eq
        · intro mm hmm
          obtain ⟨hmem, hmtp⟩ := lastOn_some_mem hmm
          have hmem_sorted : mm ∈ sortedMessages b := by
            rw [hl]
            rcases List.mem_cons.mp hmem with h1 | h1
            · subst h1
              simp
            · have h2 : mm ∈ l2 := (List.takeWhile_prefix _).subset h1
              simp [h2]
          exact joint_msg_data_some htp hmem_sorted hmtp
        · intro hX
          obtain ⟨hS, hM⟩ := or_eq_none (lastOn_cons tp m _ ▸ hX)
          have hMm : lastOn tp [m] = none := by
            by_cases hc : m.topic = tp
            · rw [if_pos hc] at hM
              cases hM
            · unfold lastOn msgOnTopicB
              simp [List.filter, hc]
          rw [lastOn_append tp l1 [m], hMm, Option.none_or]
      | none =>
        have hIR : initRestOf b = sortedMessages b := by
          unfold initRestOf
          rw [show (bootOf b).1 = none from by rw [hboot]]
        have hACC : acc0 = applyMsgs (jointTopicsOf b) emptyAcc (sortedMessages b) := by
          have h1 := bootScan_none_acc (jointTopicsOf b) (targetTopicsOf b)
            (sortedMessages b) [] emptyAcc
            (by rw [show bootScan (jointTopicsOf b) (targetTopicsOf b) [] emptyAcc
                (sortedMessages b) = bootOf b from rfl, hboot])
          rw [show bootScan (jointTopicsOf b) (targetTopicsOf b) [] emptyAcc
              (sortedMessages b) = bootOf b from rfl, hboot] at h1
          exact h1
        have hBA : bootAccJoint b tp = jointAt acc0 tp := by
          unfold bootAccJoint jointAt jointAtJ
          rw [hboot]
        have hIA : initAccOf b = acc0 := by
          unfold initAccOf
          rw [hboot]
        have hTF : (sortedMessages b).takeWhile
            (msgLeB (100 * bootstrapTs b + k * stepCms)) =
            (sortedMessages b).filter (msgLeB (100 * bootstrapTs b + k * stepCms)) :=
          takeWhile_eq_filter_of_sorted hp _
        have hacc0 : jointAt acc0 tp = dataOr (lastOn tp (sortedMessages b)) none := by
          rw [hACC, jointAt_applyMsgs _ hcont]
          rfl
        rw [hIR, hIA, hTF, hBA, hacc0]
        cases hY : lastOn tp ((sortedMessages b).filter
            (msgLeB (100 * bootstrapTs b + k * stepCms))) with
        | some mm =>
          obtain ⟨hmem, hmtp⟩ := lastOn_some_mem hY
          have hmem_sorted : mm ∈ sortedMessages b := (List.mem_filter.mp hmem).1
          obtain ⟨pp, hpp⟩ := joint_msg_data_some htp hmem_sorted hmtp
          simp [dataOr, hpp, Option.or]
        | none =>
          simp [dataOr, Option.or]

/-- Witness for the amended C1 at a concrete loaded bag, frame 1. -/
theorem zoh_snapshot_witness :
    lookupA topicJ (((loadFile emptyState cexBag).1.historicalJointData.get? 1).getD []) =
      Option.map normalizeJoint
        ((zohJointSpec cexBag topicJ (nominalTime cexBag 1)).or (bootAccJoint cexBag topicJ)) :=
  zoh_snapshot emptyState cexBag false rfl topicJ (by decide) 1 (by decide)

/-- Claim C1 counterexample: in `cexBag` frame 2 has nominal time 66.66 ms
and stored (rounded) timestamp 67 ms; the joint message at 67 ms is the
latest message with timestamp ≤ the stored timestamp, yet the stored
snapshot still holds the earlier payload, because the cursor compares
against the un-rounded nominal time.  A later message on the topic did
arrive after bootstrap, so the claim's bootstrap-fallback clause does not
apply. -/
theorem zoh_rounding_gap_cex :
    lookupA topicJ (((loadFile emptyState cexBag).1.historicalJointData.get? 2).getD [])
      = some payloadA ∧
    (loadFile emptyState cexBag).1.timestamps.get? 2 = some 67 ∧
    zohJointSpecMs cexBag topicJ 67 = some payloadB ∧
    payloadA ≠ payloadB := by
  exact ⟨by decide, by decide, by decide, by decide⟩

end RosAnnotator
